import Mathlib

/-!
Shallow embedding of the Foursquare check-in puller
(source files: foursquare_puller_script.py, with the SQLite schema taken
from init_db_script.py).

Modelling conventions:
* SQLite relations are Lean lists of row structures; INSERT OR REPLACE
  removes every row sharing the new key and appends the new row, mirroring
  SQLite delete-then-insert semantics for REPLACE.
* A Python exception that the source function catches is modelled by the
  corresponding false/unchanged-store result; the embedded functions are
  total because the source functions swallow their own errors.
* time.time() readings are supplied by the environment (Env.now for the
  store writes of one run, Env.moduleLoadTime for the module-import
  instant at which the dataclass field default of PullStats.start_time is
  evaluated, Env.runStartTime for the instant pull_checkins_for_user is
  entered).  JSON numbers are Nat / Int / Rat.
* Remote responses are oracles: Env.fetchPage k is the parsed item list of
  the k-th page request of a run (none models the request failing after
  all retries, an absent or malformed body is the empty list, exactly as
  the .get chains of the source produce), and Env.fetchPlace pid is the
  place-details body for place pid (none models fetch failure).  The
  retry/backoff mechanics of make_api_request are modelled separately and
  the pull loop counts one api request per logical fetch.
* The checkins foreign keys are not enforced during a pull: the PRAGMA
  foreign_keys = ON of init_db_script.py is per connection, and the
  puller's connections never set it.  NOT NULL and CHECK constraints are
  table properties and are enforced.
* The while True pagination loop gets explicit fuel; a none result of
  pull_checkins_for_user models a run that does not terminate within the
  fuel bound (the source loop would still be iterating).
-/

/-- CHECKINS_LIMIT of the source: page size requested from the API. -/
def CHECKINS_LIMIT : Nat := 200

/-- MAX_RETRIES of the source: attempt cap of make_api_request. -/
def MAX_RETRIES : Nat := 3

/-- REQUEST_DELAY of the source: throttle sleep after a successful request. -/
def REQUEST_DELAY : ℚ := 1

/-- Backoff base of make_api_request: time.sleep(1.5 ** attempt). -/
def BACKOFF_BASE : ℚ := 3 / 2

/-- One item of the checkins page, as read by the .get chains of the
source (absent keys are none; the count fields default to 0 via
.get('count', 0) but may carry any JSON integer). -/
structure CheckinItem where
  id : Option String
  createdAt : Option Nat
  venueId : Option String
  type : Option String
  shout : Option String
  privateFlag : Option Bool
  visibility : Option String
  isMayor : Option Bool
  like : Option Bool
  commentsCount : Int
  likesCount : Int
  photosCount : Int
  sourceName : Option String
  sourceUrl : Option String
  timeZoneOffset : Option Int
deriving DecidableEq

/-- A row of the checkins table (init_db_script.py). -/
structure CheckinRow where
  checkinId : String
  userId : String
  placeFsqId : String
  createdAt : Nat
  type : Option String
  shout : Option String
  privateFlag : Option Bool
  visibility : Option String
  isMayor : Option Bool
  liked : Option Bool
  commentsCount : Int
  likesCount : Int
  photosCount : Int
  sourceName : Option String
  sourceUrl : Option String
  timeZoneOffset : Option Int
  importedAt : Nat
deriving DecidableEq

/-- The location sub-object of a place-details response; the source reads
it via place_data.get('location', {}), so an absent object is the
all-none value. -/
structure PlaceLocation where
  address : Option String
  locality : Option String
  region : Option String
  postcode : Option String
  country : Option String
  formattedAddress : Option String
deriving DecidableEq

/-- One entry of the categories array of a place-details response. -/
structure PlaceCategory where
  fsqCategoryId : Option String
  name : Option String
deriving DecidableEq

/-- A place-details response body, as read by insert_or_update_place. -/
structure PlaceData where
  fsqPlaceId : Option String
  name : Option String
  latitude : Option ℚ
  longitude : Option ℚ
  location : PlaceLocation
  categories : List PlaceCategory
  website : Option String
  tel : Option String
  email : Option String
  price : Option Int
  rating : Option ℚ
deriving DecidableEq

/-- A row of the places table (init_db_script.py). -/
structure PlaceRow where
  fsqPlaceId : String
  name : Option String
  latitude : Option ℚ
  longitude : Option ℚ
  address : Option String
  locality : Option String
  region : Option String
  postcode : Option String
  country : Option String
  formattedAddress : Option String
  primaryCategoryFsqId : Option String
  primaryCategoryName : Option String
  website : Option String
  tel : Option String
  email : Option String
  price : Option Int
  rating : Option ℚ
  lastUpdatedAt : Nat
  createdAt : Nat
deriving DecidableEq

/-- A row of the users table (init_db_script.py). -/
structure UserRow where
  userId : String
  lastPulledTimestamp : Nat
  lastUpdatedAt : Nat
  createdAt : Nat
deriving DecidableEq

/-- The three relations of the local store. -/
structure DB where
  users : List UserRow
  places : List PlaceRow
  checkins : List CheckinRow
deriving DecidableEq

/-- get_last_pulled_timestamp: SELECT last_pulled_timestamp FROM users
WHERE foursquare_user_id = uid, none when no row is found (or on a
database error, which the source also maps to None). -/
def get_last_pulled_timestamp (db : DB) (uid : String) : Option Nat :=
  (db.users.find? (fun r => decide (r.userId = uid))).map
    (fun r => r.lastPulledTimestamp)

/-- update_last_pulled_timestamp: INSERT OR REPLACE INTO users
(foursquare_user_id, last_pulled_timestamp, last_updated_at); the
created_at column takes its DEFAULT on the replacement row. -/
def update_last_pulled_timestamp (now : Nat) (db : DB) (uid : String)
    (ts : Nat) : DB :=
  { db with
    users := db.users.filter (fun r => decide (r.userId ≠ uid)) ++
      [{ userId := uid, lastPulledTimestamp := ts, lastUpdatedAt := now,
         createdAt := now }] }

/-- place_exists: SELECT 1 FROM places WHERE fsq_place_id = pid LIMIT 1. -/
def place_exists (db : DB) (pid : String) : Bool :=
  db.places.any (fun r => decide (r.fsqPlaceId = pid))

/-- The places_coords_check CHECK constraint of the places table. -/
def coordsOk (la lo : Option ℚ) : Bool :=
  match la, lo with
  | none, none => true
  | some a, some b =>
      decide (-90 ≤ a ∧ a ≤ 90 ∧ -180 ≤ b ∧ b ≤ 180)
  | _, _ => false

/-- The row insert_or_update_place builds from a place-details body:
location fields from the location sub-object, the primary category from
next(iter(categories), empty), both time columns set to now. -/
def placeRowOf (now : Nat) (pd : PlaceData) (pid : String) : PlaceRow :=
  { fsqPlaceId := pid, name := pd.name,
    latitude := pd.latitude, longitude := pd.longitude,
    address := pd.location.address, locality := pd.location.locality,
    region := pd.location.region, postcode := pd.location.postcode,
    country := pd.location.country,
    formattedAddress := pd.location.formattedAddress,
    primaryCategoryFsqId := (pd.categories.headD ⟨none, none⟩).fsqCategoryId,
    primaryCategoryName := (pd.categories.headD ⟨none, none⟩).name,
    website := pd.website, tel := pd.tel, email := pd.email,
    price := pd.price, rating := pd.rating,
    lastUpdatedAt := now, createdAt := now }

/-- insert_or_update_place: a missing or empty fsq_place_id is rejected up
front (Python truthiness of the guard), a row violating the
places_coords_check constraint raises IntegrityError which the source
catches and maps to False with the store untouched; otherwise INSERT OR
REPLACE keyed by fsq_place_id succeeds. -/
def insert_or_update_place (now : Nat) (db : DB) (pd : PlaceData) :
    Bool × DB :=
  match pd.fsqPlaceId with
  | none => (false, db)
  | some pid =>
    if pid = "" then (false, db)
    else if coordsOk pd.latitude pd.longitude then
      (true, { db with
        places := db.places.filter (fun r => decide (r.fsqPlaceId ≠ pid)) ++
          [placeRowOf now pd pid] })
    else (false, db)

/-- The row insert_checkin builds from an item (the imported_at column
takes its DEFAULT, the insert-time reading). -/
def checkinRowOf (now : Nat) (uid cid pid : String) (created : Nat)
    (c : CheckinItem) : CheckinRow :=
  { checkinId := cid, userId := uid, placeFsqId := pid,
    createdAt := created, type := c.type, shout := c.shout,
    privateFlag := c.privateFlag, visibility := c.visibility,
    isMayor := c.isMayor, liked := c.like,
    commentsCount := c.commentsCount,
    likesCount := c.likesCount, photosCount := c.photosCount,
    sourceName := c.sourceName, sourceUrl := c.sourceUrl,
    timeZoneOffset := c.timeZoneOffset, importedAt := now }

/-- insert_checkin: a falsy id returns False up front; a duplicate id is
detected by the SELECT probe and returns False; a NULL place_fsq_id or
created_at, a created_at of 0 (checkins_timestamps_check) or a negative
counter (checkins_counts_check) makes the INSERT raise, which the source
catches and maps to False with the store untouched; otherwise the row is
appended.  The foreign keys are not enforced (per-connection pragma). -/
def insert_checkin (now : Nat) (db : DB) (c : CheckinItem) (uid : String) :
    Bool × DB :=
  match c.id with
  | none => (false, db)
  | some cid =>
    if cid = "" then (false, db)
    else if db.checkins.any (fun r => decide (r.checkinId = cid)) then
      (false, db)
    else
      match c.venueId, c.createdAt with
      | some pid, some created =>
        if 0 < created ∧ 0 ≤ c.commentsCount ∧ 0 ≤ c.likesCount ∧
            0 ≤ c.photosCount then
          (true, { db with checkins := db.checkins ++
            [checkinRowOf now uid cid pid created c] })
        else (false, db)
      | _, _ => (false, db)

/-- The PullStats dataclass.  In the source its start_time field has the
dataclass default time.time(), an expression that Python evaluates once,
when the class body executes at module import; every later PullStats()
therefore shares the module-import instant as its start_time. -/
structure PullStats where
  checkins_pulled : Nat
  places_pulled : Nat
  api_requests : Nat
  start_time : Nat
deriving DecidableEq

/-- The duration property of PullStats: time.time() - self.start_time. -/
def PullStats.duration (s : PullStats) (now : Nat) : Nat :=
  now - s.start_time

/-- make_api_request, lines 202-217: the for-attempt loop body.  The
oracle maps the attempt index to the parsed response body, none being any
requests.exceptions.RequestException (network error, timeout, non-2xx
status, unparseable body).  The result carries the request counter and
the ordered list of time.sleep durations the loop performed.  remaining
is MAX_RETRIES - attempt, so the range(MAX_RETRIES) loop ends when it
reaches 0. -/
def make_api_request_go {α : Type} (oracle : Nat → Option α) :
    Nat → Nat → Nat × List ℚ → Option α × (Nat × List ℚ)
  | _, 0, acc => (none, acc)
  | attempt, remaining + 1, (reqs, sleeps) =>
    match oracle attempt with
    | some body => (some body, (reqs + 1, sleeps ++ [REQUEST_DELAY]))
    | none =>
      if attempt ≥ MAX_RETRIES - 1 then
        make_api_request_go oracle (attempt + 1) remaining (reqs + 1, sleeps)
      else
        make_api_request_go oracle (attempt + 1) remaining
          (reqs + 1, sleeps ++ [BACKOFF_BASE ^ attempt])

/-- make_api_request: runs the attempt loop from attempt 0 against the
caller's PullStats, whose api_requests counter is bumped once per attempt
(stats.api_requests += 1 at the top of the loop body). -/
def make_api_request {α : Type} (oracle : Nat → Option α)
    (stats : PullStats) : Option α × PullStats × List ℚ :=
  match make_api_request_go oracle 0 MAX_RETRIES (stats.api_requests, []) with
  | (res, reqs, sleeps) => (res, { stats with api_requests := reqs }, sleeps)

/-- Outcome of one place-details fetch of the pull loop. -/
inductive PlaceOutcome where
  | fetchFailed
  | storeFailed
  | stored (storedId : String)
deriving DecidableEq

/-- Ghost trace events of one run, recording the requests the run issues
and the checkins it inserts; they instrument the embedding and carry no
behaviour. -/
inductive Event where
  | pageRequest (k : Nat) (ok : Bool)
  | placeFetch (pid : String) (outcome : PlaceOutcome)
  | checkinInserted (cid : String) (created : Nat)
deriving DecidableEq

/-- The environment of one call of pull_checkins_for_user. -/
structure Env where
  fetchPage : Nat → Option (List CheckinItem)
  fetchPlace : String → Option PlaceData
  userId : String
  now : Nat
  moduleLoadTime : Nat
  runStartTime : Nat

/-- The mutable state of the pull loop: the store connection, the stats
record and the new_highest_timestamp tracker. -/
structure LoopState where
  db : DB
  stats : PullStats
  newHighest : Nat
deriving DecidableEq

/-- The incremental-sync cutoff of the item loop, line 301:
last_pulled_timestamp > 0 and created_at <= last_pulled_timestamp, with
created_at = checkin.get('createdAt', 0). -/
def boundaryHit (lastPulled : Nat) (c : CheckinItem) : Bool :=
  decide (0 < lastPulled ∧ c.createdAt.getD 0 ≤ lastPulled)

/-- The place-resolution block of the item loop, lines 306-311: when the
venue id is truthy and the place is not cached in the store, fetch the
details (one logical request) and upsert them, counting places_pulled on
success.  The stored event records the identifier the row was stored
under, which is the fsq_place_id of the response body. -/
def resolvePlaceStep (env : Env) (st : LoopState) (c : CheckinItem) :
    LoopState × List Event :=
  match c.venueId with
  | none => (st, [])
  | some pid =>
    if pid = "" then (st, [])
    else if place_exists st.db pid then (st, [])
    else
      match env.fetchPlace pid with
      | none =>
        ({ st with stats :=
           { st.stats with api_requests := st.stats.api_requests + 1 } },
         [.placeFetch pid .fetchFailed])
      | some pd =>
        if (insert_or_update_place env.now st.db pd).1 then
          ({ db := ((insert_or_update_place env.now st.db pd).2),
             stats := { st.stats with
               api_requests := st.stats.api_requests + 1,
               places_pulled := st.stats.places_pulled + 1 },
             newHighest := st.newHighest },
           [.placeFetch pid (.stored (pd.fsqPlaceId.getD ""))])
        else
          ({ st with
             db := ((insert_or_update_place env.now st.db pd).2),
             stats := { st.stats with
               api_requests := st.stats.api_requests + 1 } },
           [.placeFetch pid .storeFailed])

/-- The checkin-insertion block of the item loop, lines 313-316: attempt
the insert; on success count it and track the maximum timestamp. -/
def insertStep (env : Env) (st : LoopState) (c : CheckinItem) :
    LoopState × List Event :=
  if (insert_checkin env.now st.db c env.userId).1 then
    ({ db := ((insert_checkin env.now st.db c env.userId).2),
       stats := { st.stats with
         checkins_pulled := st.stats.checkins_pulled + 1 },
       newHighest :=
         if st.newHighest < c.createdAt.getD 0 then c.createdAt.getD 0
         else st.newHighest },
     [.checkinInserted (c.id.getD "") (c.createdAt.getD 0)])
  else ({ st with db := (insert_checkin env.now st.db c env.userId).2 }, [])

/-- The for-checkin-in-items loop, lines 299-316: returns the final
state, the should_continue flag and the trace events of the page. -/
def processItems (env : Env) (lastPulled : Nat) (st : LoopState) :
    List CheckinItem → LoopState × Bool × List Event
  | [] => (st, true, [])
  | c :: rest =>
    if boundaryHit lastPulled c then (st, false, [])
    else
      let r1 := resolvePlaceStep env st c
      let r2 := insertStep env r1.1 c
      let r3 := processItems env lastPulled r2.1 rest
      (r3.1, r3.2.1, r1.2 ++ r2.2 ++ r3.2.2)

/-- The while True pagination loop, lines 286-320, with fuel; k counts
the page requests of the run (the k-th request carries offset
k * CHECKINS_LIMIT, since the loop only continues past full pages).  A
failed page fetch aborts the pull, an empty item list ends it, and after
a page the loop continues only when should_continue held and the page was
full. -/
def pullLoop (env : Env) (lastPulled : Nat) :
    Nat → Nat → LoopState → Option (LoopState × List Event)
  | 0, _, _ => none
  | fuel + 1, k, st =>
    match env.fetchPage k with
    | none =>
      some ({ st with stats :=
        { st.stats with api_requests := st.stats.api_requests + 1 } },
        [.pageRequest k false])
    | some items =>
      let st1 : LoopState := { st with stats :=
        { st.stats with api_requests := st.stats.api_requests + 1 } }
      if items.isEmpty then some (st1, [.pageRequest k true])
      else
        let r := processItems env lastPulled st1 items
        if r.2.1 = false ∨ items.length < CHECKINS_LIMIT then
          some (r.1, .pageRequest k true :: r.2.2)
        else
          match pullLoop env lastPulled fuel (k + 1) r.1 with
          | none => none
          | some (stF, tail) =>
            some (stF, (.pageRequest k true :: r.2.2) ++ tail)

/-- pull_checkins_for_user, lines 273-327: build the fresh PullStats
(whose start_time is the module-import reading, see PullStats), read the
watermark (or 0), run the pagination loop, and afterwards advance the
watermark only when the tracked maximum strictly exceeds it. -/
def pull_checkins_for_user (env : Env) (fuel : Nat) (db : DB) :
    Option (DB × PullStats × List Event) :=
  let stats0 : PullStats :=
    { checkins_pulled := 0, places_pulled := 0, api_requests := 0,
      start_time := env.moduleLoadTime }
  let lastPulled := (get_last_pulled_timestamp db env.userId).getD 0
  match pullLoop env lastPulled fuel 0
      { db := db, stats := stats0, newHighest := lastPulled } with
  | none => none
  | some (st, tr) =>
    let dbF :=
      if lastPulled < st.newHighest then
        update_last_pulled_timestamp env.now st.db env.userId st.newHighest
      else st.db
    some (dbF, st.stats, tr)

/-- The duplicate probe of insert_checkin: SELECT 1 FROM checkins WHERE
checkin_id = cid LIMIT 1. -/
def checkin_exists (db : DB) (cid : String) : Bool :=
  db.checkins.any (fun r => decide (r.checkinId = cid))

/-- The success condition of insert_checkin, as a predicate on the store
and the item: truthy id, no duplicate, and an INSERT that passes the NOT
NULL and CHECK constraints of the checkins table. -/
def insertOk (db : DB) (c : CheckinItem) : Bool :=
  match c.id with
  | none => false
  | some cid =>
    !decide (cid = "") && !checkin_exists db cid &&
    match c.venueId, c.createdAt with
    | some _, some created =>
      decide (0 < created ∧ 0 ≤ c.commentsCount ∧ 0 ≤ c.likesCount ∧
        0 ≤ c.photosCount)
    | _, _ => false

/-- The success condition of insert_or_update_place: truthy fsq_place_id
and coordinates passing places_coords_check; it does not depend on the
store. -/
def upsertOk (pd : PlaceData) : Bool :=
  match pd.fsqPlaceId with
  | none => false
  | some pid => !decide (pid = "") && coordsOk pd.latitude pd.longitude

/-- Timestamps of the checkins a trace inserted. -/
def insertedCreateds (tr : List Event) : List Nat :=
  tr.filterMap fun e =>
    match e with
    | .checkinInserted _ cr => some cr
    | _ => none

/-- Number of place-details requests of a trace for one identifier. -/
def placeFetchCount (tr : List Event) (pid : String) : Nat :=
  tr.countP fun e =>
    match e with
    | .placeFetch q _ => decide (q = pid)
    | _ => false

/-- An event that fetched pid and stored the result under pid itself. -/
def storedSelf (pid : String) (e : Event) : Bool :=
  match e with
  | .placeFetch q (.stored sid) => decide (q = pid ∧ sid = pid)
  | _ => false

/-- Checks that once a place fetch stored its result under the requested
identifier, no later place fetch of the trace targets that identifier. -/
def noRepeatAfterStored : List Event → Bool
  | [] => true
  | .placeFetch pid (.stored sid) :: rest =>
    (if sid = pid then decide (placeFetchCount rest pid = 0) else true) &&
      noRepeatAfterStored rest
  | _ :: rest => noRepeatAfterStored rest

/-- Number of requests (page or place) a trace records. -/
def apiEventCount (tr : List Event) : Nat :=
  tr.countP fun e =>
    match e with
    | .pageRequest _ _ => true
    | .placeFetch _ _ => true
    | _ => false

/-- Number of checkins a trace inserted. -/
def insertedCount (tr : List Event) : Nat :=
  tr.countP fun e =>
    match e with
    | .checkinInserted _ _ => true
    | _ => false

/-- Number of places a trace fetched and stored. -/
def storedCount (tr : List Event) : Nat :=
  tr.countP fun e =>
    match e with
    | .placeFetch _ (.stored _) => true
    | _ => false

/-- A state of the run in which processing the item cannot change the
places relation any more: either the item carries no truthy venue id, or
its place is cached, or its fetch fails, or its fetched body fails the
upsert (a store-independent condition). -/
def deadPlace (fp : String → Option PlaceData) (c : CheckinItem)
    (db : DB) : Prop :=
  ∀ pid, c.venueId = some pid → pid ≠ "" →
    place_exists db pid = true ∨ fp pid = none ∨
    ∃ pd, fp pid = some pd ∧ upsertOk pd = false

/-- An item the cutoff lets through. -/
def okItem (lastPulled : Nat) (c : CheckinItem) : Bool :=
  !boundaryHit lastPulled c

/-- An item carrying only the fields the engine reads. -/
def mkItem (id : Option String) (createdAt : Option Nat)
    (venueId : Option String) : CheckinItem :=
  { id := id, createdAt := createdAt, venueId := venueId, type := none,
    shout := none, privateFlag := none, visibility := none,
    isMayor := none, like := none, commentsCount := 0, likesCount := 0,
    photosCount := 0, sourceName := none, sourceUrl := none,
    timeZoneOffset := none }

/-- A minimal place-details body carrying the given identifier. -/
def pdOf (pid : Option String) : PlaceData :=
  { fsqPlaceId := pid, name := none, latitude := none, longitude := none,
    location := ⟨none, none, none, none, none, none⟩, categories := [],
    website := none, tel := none, email := none, price := none,
    rating := none }

def emptyDB : DB := ⟨[], [], []⟩

def noStats : PullStats :=
  { checkins_pulled := 0, places_pulled := 0, api_requests := 0,
    start_time := 0 }

def envW : Env :=
  { fetchPage := fun k =>
      if k = 0 then some [mkItem (some "c1") (some 30) (some "P")]
      else none,
    fetchPlace := fun pid => some (pdOf (some pid)),
    userId := "u", now := 40, moduleLoadTime := 0, runStartTime := 0 }

def dbW : DB := ⟨[⟨"u", 20, 0, 0⟩], [], []⟩

def rW : DB × PullStats × List Event :=
  (pull_checkins_for_user envW 2 dbW).getD ⟨dbW, noStats, []⟩

def envC5 : Env :=
  { fetchPage := fun k =>
      if k = 0 then
        some [mkItem (some "a") (some 10) (some "P"),
              mkItem (some "b") (some 5) (some "P")]
      else none,
    fetchPlace := fun _ => none,
    userId := "u", now := 100, moduleLoadTime := 0, runStartTime := 0 }

def rC5 : DB × PullStats × List Event :=
  (pull_checkins_for_user envC5 2 emptyDB).getD ⟨emptyDB, noStats, []⟩

def envC2a : Env :=
  { fetchPage := fun k =>
      if k = 0 then some [mkItem none (some 100) (some "P")] else none,
    fetchPlace := fun pid => if pid = "P" then some (pdOf (some "Q"))
      else none,
    userId := "u", now := 0, moduleLoadTime := 0, runStartTime := 0 }

def envC2b : Env := { envC2a with now := 1 }

def rC2a : DB × PullStats × List Event :=
  (pull_checkins_for_user envC2a 2 emptyDB).getD ⟨emptyDB, noStats, []⟩

def rC2b : DB × PullStats × List Event :=
  (pull_checkins_for_user envC2b 2 rC2a.1).getD ⟨emptyDB, noStats, []⟩

def envC9 : Env :=
  { fetchPage := fun k =>
      if k = 0 then some [mkItem (some "a") (some 10) (some "P")]
      else none,
    fetchPlace := fun pid => some (pdOf (some pid)),
    userId := "u", now := 60, moduleLoadTime := 0, runStartTime := 50 }

def rC9 : DB × PullStats × List Event :=
  (pull_checkins_for_user envC9 2 emptyDB).getD ⟨emptyDB, noStats, []⟩

def dbDup : DB :=
  ⟨[], [],
   [{ checkinId := "x", userId := "u", placeFsqId := "P",
      createdAt := 3, type := none, shout := none, privateFlag := none,
      visibility := none, isMayor := none, liked := none,
      commentsCount := 0, likesCount := 0, photosCount := 0,
      sourceName := none, sourceUrl := none, timeZoneOffset := none,
      importedAt := 0 }]⟩

def stW7 : LoopState := ⟨emptyDB, noStats, 0⟩

def envW7 : Env :=
  { fetchPage := fun _ => none, fetchPlace := fun _ => none,
    userId := "u", now := 7, moduleLoadTime := 0, runStartTime := 0 }

def cW7 : CheckinItem := mkItem (some "y") (some 5) (some "P")

def pdOneSided : PlaceData :=
  { fsqPlaceId := some "R", name := none, latitude := some 1,
    longitude := none,
    location := ⟨none, none, none, none, none, none⟩, categories := [],
    website := none, tel := none, email := none, price := none,
    rating := none }

theorem insert_checkin_fail {db : DB} {c : CheckinItem} (now : Nat)
    (uid : String) (h : insertOk db c = false) :
    insert_checkin now db c uid = (false, db) := by
  unfold insert_checkin
  unfold insertOk checkin_exists at h
  cases hid : c.id with
  | none => simp
  | some cid =>
    rw [hid] at h
    by_cases hcid : cid = ""
    · simp [hcid]
    · by_cases hdup :
        (db.checkins.any fun r => decide (r.checkinId = cid)) = true
      · simp [hcid, hdup]
      · simp only [Bool.not_eq_true] at hdup
        cases hv : c.venueId with
        | none => simp [hdup, hcid]
        | some pid =>
          cases hc : c.createdAt with
          | none => simp [hdup, hcid, hv]
          | some created =>
            rw [hv, hc] at h
            by_cases hcon : 0 < created ∧ 0 ≤ c.commentsCount ∧
                0 ≤ c.likesCount ∧ 0 ≤ c.photosCount
            · exfalso
              simp [hcid, hdup, hcon] at h
            · simp [hdup, hcid, hv, hc, hcon]

theorem insert_checkin_true {db : DB} {c : CheckinItem} (now : Nat)
    (uid : String) (h : insertOk db c = true) :
    ∃ cid pid created,
      c.id = some cid ∧ c.venueId = some pid ∧ c.createdAt = some created ∧
      insert_checkin now db c uid =
        (true, { db with checkins :=
          db.checkins ++ [checkinRowOf now uid cid pid created c] }) := by
  unfold insertOk checkin_exists at h
  cases hid : c.id with
  | none => rw [hid] at h; simp at h
  | some cid =>
    rw [hid] at h
    simp only [Bool.and_eq_true, Bool.not_eq_true'] at h
    obtain ⟨⟨hcid, hdup⟩, hrest⟩ := h
    cases hv : c.venueId with
    | none => rw [hv] at hrest; simp at hrest
    | some pid =>
      cases hc : c.createdAt with
      | none => rw [hv, hc] at hrest; simp at hrest
      | some created =>
        rw [hv, hc] at hrest
        simp only [decide_eq_true_eq] at hrest
        refine ⟨cid, pid, created, rfl, rfl, rfl, ?_⟩
        unfold insert_checkin
        simp only [hid]
        rw [if_neg (by simp_all), if_neg (by simp [hdup]), hv, hc]
        simp [hrest]

theorem insert_checkin_users (now : Nat) (db : DB) (c : CheckinItem)
    (uid : String) : (insert_checkin now db c uid).2.users = db.users := by
  by_cases hok : insertOk db c = true
  · obtain ⟨cid, pid, created, _, _, _, heq⟩ :=
      insert_checkin_true now uid hok
    rw [heq]
  · rw [insert_checkin_fail now uid (by simp_all)]

theorem insert_checkin_places (now : Nat) (db : DB) (c : CheckinItem)
    (uid : String) : (insert_checkin now db c uid).2.places = db.places := by
  by_cases hok : insertOk db c = true
  · obtain ⟨cid, pid, created, _, _, _, heq⟩ :=
      insert_checkin_true now uid hok
    rw [heq]
  · rw [insert_checkin_fail now uid (by simp_all)]

theorem insert_checkin_exists_mono {db : DB} {x : String} (now : Nat)
    (c : CheckinItem) (uid : String) (h : checkin_exists db x = true) :
    checkin_exists (insert_checkin now db c uid).2 x = true := by
  by_cases hok : insertOk db c = true
  · obtain ⟨cid, pid, created, _, _, _, heq⟩ :=
      insert_checkin_true now uid hok
    rw [heq]
    unfold checkin_exists at h ⊢
    simp only [List.any_append, Bool.or_eq_true]
    exact Or.inl h
  · rw [insert_checkin_fail now uid (by simp_all)]
    exact h

theorem insert_or_update_place_fail {pd : PlaceData} (now : Nat) (db : DB)
    (h : upsertOk pd = false) :
    insert_or_update_place now db pd = (false, db) := by
  unfold insert_or_update_place
  unfold upsertOk at h
  cases hid : pd.fsqPlaceId with
  | none => simp
  | some pid =>
    rw [hid] at h
    by_cases hp : pid = ""
    · simp [hp]
    · simp only [hp, decide_eq_false_iff_not, not_false_iff,
        Bool.not_eq_true] at h
      have hco : coordsOk pd.latitude pd.longitude = false := by
        simp only [Bool.and_eq_false_iff] at h
        rcases h with h | h
        · simp [hp] at h
        · exact h
      simp [hp, hco]

theorem insert_or_update_place_true {pd : PlaceData} (now : Nat) (db : DB)
    (h : upsertOk pd = true) :
    ∃ pid, pd.fsqPlaceId = some pid ∧ pid ≠ "" ∧
      insert_or_update_place now db pd = (true, { db with
        places := db.places.filter (fun r => decide (r.fsqPlaceId ≠ pid)) ++
          [placeRowOf now pd pid] }) := by
  unfold upsertOk at h
  cases hid : pd.fsqPlaceId with
  | none => rw [hid] at h; simp at h
  | some pid =>
    rw [hid] at h
    simp only [Bool.and_eq_true, Bool.not_eq_true',
      decide_eq_false_iff_not] at h
    refine ⟨pid, rfl, h.1, ?_⟩
    unfold insert_or_update_place
    simp [hid, h.1, h.2]

theorem insert_or_update_place_users (now : Nat) (db : DB)
    (pd : PlaceData) :
    (insert_or_update_place now db pd).2.users = db.users := by
  by_cases hok : upsertOk pd = true
  · obtain ⟨pid, _, _, heq⟩ := insert_or_update_place_true now db hok
    rw [heq]
  · rw [insert_or_update_place_fail now db (by simp_all)]

theorem insert_or_update_place_checkins (now : Nat) (db : DB)
    (pd : PlaceData) :
    (insert_or_update_place now db pd).2.checkins = db.checkins := by
  by_cases hok : upsertOk pd = true
  · obtain ⟨pid, _, _, heq⟩ := insert_or_update_place_true now db hok
    rw [heq]
  · rw [insert_or_update_place_fail now db (by simp_all)]

theorem insert_or_update_place_mono {db : DB} {x : String} (now : Nat)
    (pd : PlaceData) (h : place_exists db x = true) :
    place_exists (insert_or_update_place now db pd).2 x = true := by
  by_cases hok : upsertOk pd = true
  · obtain ⟨pid, _, _, heq⟩ := insert_or_update_place_true now db hok
    rw [heq]
    unfold place_exists at h ⊢
    simp only [List.any_append, Bool.or_eq_true]
    by_cases hx : x = pid
    · right
      simp [placeRowOf, hx]
    · left
      simp only [List.any_eq_true, decide_eq_true_eq] at h ⊢
      obtain ⟨r, hr, hrx⟩ := h
      exact ⟨r, List.mem_filter.mpr ⟨hr, by simp [hrx, hx]⟩, hrx⟩
  · rw [insert_or_update_place_fail now db (by simp_all)]
    exact h

theorem insert_or_update_place_self {pd : PlaceData} {pid : String}
    (now : Nat) (db : DB) (h : upsertOk pd = true)
    (hid : pd.fsqPlaceId = some pid) :
    place_exists (insert_or_update_place now db pd).2 pid = true := by
  obtain ⟨pid2, hid2, _, heq⟩ := insert_or_update_place_true now db h
  rw [hid] at hid2
  cases hid2
  rw [heq]
  unfold place_exists
  simp [placeRowOf]

theorem get_last_pulled_timestamp_update (now : Nat) (db : DB)
    (uid : String) (ts : Nat) :
    get_last_pulled_timestamp
      (update_last_pulled_timestamp now db uid ts) uid = some ts := by
  unfold get_last_pulled_timestamp update_last_pulled_timestamp
  have hnone : (db.users.filter (fun r => decide (r.userId ≠ uid))).find?
      (fun r => decide (r.userId = uid)) = none := by
    rw [List.find?_eq_none]
    intro r hr
    have := (List.mem_filter.mp hr).2
    simp only [decide_eq_true_eq] at this ⊢
    simp [this]
  simp [List.find?_append, hnone]
  exact ⟨_, Or.inr rfl, rfl⟩

theorem update_last_pulled_timestamp_places (now : Nat) (db : DB)
    (uid : String) (ts : Nat) :
    (update_last_pulled_timestamp now db uid ts).places = db.places := rfl

theorem update_last_pulled_timestamp_checkins (now : Nat) (db : DB)
    (uid : String) (ts : Nat) :
    (update_last_pulled_timestamp now db uid ts).checkins = db.checkins :=
  rfl

/-- place_exists only reads the places relation. -/
theorem place_exists_congr {db db2 : DB} (x : String)
    (h : db2.places = db.places) : place_exists db2 x = place_exists db x := by
  unfold place_exists
  rw [h]

/-- checkin_exists only reads the checkins relation. -/
theorem checkin_exists_congr {db db2 : DB} (x : String)
    (h : db2.checkins = db.checkins) :
    checkin_exists db2 x = checkin_exists db x := by
  unfold checkin_exists
  rw [h]

theorem deadPlace_mono {fp : String → Option PlaceData} {c : CheckinItem}
    {db db2 : DB} (h : deadPlace fp c db)
    (hmono : ∀ x, place_exists db x = true → place_exists db2 x = true) :
    deadPlace fp c db2 := by
  intro pid hv hp
  rcases h pid hv hp with h1 | h1 | h1
  · exact Or.inl (hmono pid h1)
  · exact Or.inr (Or.inl h1)
  · exact Or.inr (Or.inr h1)

/-- insertOk cannot become true again once false, as the store only grows. -/
theorem insertOk_mono_false {db db2 : DB} {c : CheckinItem}
    (h : insertOk db c = false)
    (hmono : ∀ x, checkin_exists db x = true → checkin_exists db2 x = true) :
    insertOk db2 c = false := by
  unfold insertOk at h ⊢
  cases hid : c.id with
  | none => rfl
  | some cid =>
    rw [hid] at h
    by_cases hcid : cid = ""
    · simp [hcid]
    · by_cases hdup : checkin_exists db cid = true
      · simp [hmono cid hdup]
      · rcases Bool.and_eq_false_iff.mp h with hab | hM
        · exfalso
          rcases Bool.and_eq_false_iff.mp hab with ha | hb
          · simp [hcid] at ha
          · simp [hdup] at hb
        · cases hvv : c.venueId with
          | none => simp [hvv]
          | some v =>
            cases hcc : c.createdAt with
            | none => simp [hvv, hcc]
            | some cr =>
              rw [hvv, hcc] at hM
              simp only [decide_eq_false_iff_not] at hM
              simp [hvv, hcc, hM]

theorem resolvePlaceStep_frame (env : Env) (st : LoopState)
    (c : CheckinItem) :
    (resolvePlaceStep env st c).1.db.users = st.db.users ∧
    (resolvePlaceStep env st c).1.db.checkins = st.db.checkins ∧
    (resolvePlaceStep env st c).1.newHighest = st.newHighest ∧
    (resolvePlaceStep env st c).1.stats.checkins_pulled =
      st.stats.checkins_pulled ∧
    (resolvePlaceStep env st c).1.stats.start_time = st.stats.start_time := by
  unfold resolvePlaceStep
  repeat' split
  all_goals
    simp [insert_or_update_place_users, insert_or_update_place_checkins]

theorem resolvePlaceStep_place_mono (env : Env) (st : LoopState)
    (c : CheckinItem) (x : String) (h : place_exists st.db x = true) :
    place_exists (resolvePlaceStep env st c).1.db x = true := by
  unfold resolvePlaceStep
  repeat' split
  all_goals simp_all [insert_or_update_place_mono]

theorem resolvePlaceStep_dead_noop (env : Env) (st : LoopState)
    (c : CheckinItem) (h : deadPlace env.fetchPlace c st.db) :
    (resolvePlaceStep env st c).1.db = st.db ∧
    (resolvePlaceStep env st c).1.stats.places_pulled =
      st.stats.places_pulled := by
  unfold resolvePlaceStep
  cases hv : c.venueId with
  | none => exact ⟨rfl, rfl⟩
  | some pid =>
    by_cases hp : pid = ""
    · simp [hp]
    · by_cases hex : place_exists st.db pid = true
      · simp [hp, hex]
      · rcases h pid hv hp with h1 | h1 | ⟨pd, h1, h2⟩
        · exact absurd h1 hex
        · simp [hp, hex, h1]
        · have hfail := @insert_or_update_place_fail pd env.now st.db h2
          simp [hp, hex, h1, hfail]

theorem resolvePlaceStep_dead_after (env : Env) (st : LoopState)
    (c : CheckinItem)
    (hsame : ∀ pid pd, env.fetchPlace pid = some pd →
      pd.fsqPlaceId = some pid) :
    deadPlace env.fetchPlace c (resolvePlaceStep env st c).1.db := by
  intro pid hv hp
  by_cases hex : place_exists st.db pid = true
  · left
    exact resolvePlaceStep_place_mono env st c pid hex
  · cases hf : env.fetchPlace pid with
    | none => right; left; rfl
    | some pd =>
      by_cases hok : upsertOk pd = true
      · left
        have hfst : (insert_or_update_place env.now st.db pd).1 = true := by
          obtain ⟨pid2, _, _, heq⟩ :=
            insert_or_update_place_true env.now st.db hok
          rw [heq]
        have hself := insert_or_update_place_self env.now st.db hok
          (hsame pid pd hf)
        unfold resolvePlaceStep
        rw [hv]
        simp [hp, hex, hf, hfst, hself]
      · right; right
        exact ⟨pd, rfl, by simp_all⟩

theorem insertStep_frame (env : Env) (st : LoopState) (c : CheckinItem) :
    (insertStep env st c).1.db.users = st.db.users ∧
    (insertStep env st c).1.db.places = st.db.places ∧
    (insertStep env st c).1.stats.places_pulled = st.stats.places_pulled ∧
    (insertStep env st c).1.stats.api_requests = st.stats.api_requests ∧
    (insertStep env st c).1.stats.start_time = st.stats.start_time := by
  unfold insertStep
  split
  all_goals simp [insert_checkin_users, insert_checkin_places]

theorem insertStep_checkin_mono (env : Env) (st : LoopState)
    (c : CheckinItem) (x : String) (h : checkin_exists st.db x = true) :
    checkin_exists (insertStep env st c).1.db x = true := by
  unfold insertStep
  split
  all_goals simpa using insert_checkin_exists_mono env.now c env.userId h

theorem insertStep_nh_ge (env : Env) (st : LoopState) (c : CheckinItem) :
    st.newHighest ≤ (insertStep env st c).1.newHighest := by
  unfold insertStep
  repeat' split
  all_goals simp_all [Nat.le_of_lt]

theorem insertStep_dead_noop (env : Env) (st : LoopState) (c : CheckinItem)
    (h : insertOk st.db c = false) : insertStep env st c = (st, []) := by
  unfold insertStep
  rw [insert_checkin_fail env.now env.userId h]
  simp

theorem processItems_users (env : Env) (lastPulled : Nat)
    (items : List CheckinItem) : ∀ st : LoopState,
    (processItems env lastPulled st items).1.db.users = st.db.users := by
  induction items with
  | nil => intro st; rfl
  | cons c rest ih =>
    intro st
    simp only [processItems]
    split
    · rfl
    · rw [ih]
      rw [(insertStep_frame env _ c).1, (resolvePlaceStep_frame env st c).1]

theorem processItems_start_time (env : Env) (lastPulled : Nat)
    (items : List CheckinItem) : ∀ st : LoopState,
    (processItems env lastPulled st items).1.stats.start_time =
      st.stats.start_time := by
  induction items with
  | nil => intro st; rfl
  | cons c rest ih =>
    intro st
    simp only [processItems]
    split
    · rfl
    · rw [ih]
      rw [(insertStep_frame env _ c).2.2.2.2,
        (resolvePlaceStep_frame env st c).2.2.2.2]

theorem processItems_place_mono (env : Env) (lastPulled : Nat)
    (items : List CheckinItem) : ∀ (st : LoopState) (x : String),
    place_exists st.db x = true →
    place_exists (processItems env lastPulled st items).1.db x = true := by
  induction items with
  | nil => intro st x h; exact h
  | cons c rest ih =>
    intro st x h
    simp only [processItems]
    split
    · exact h
    · apply ih
      have h1 := resolvePlaceStep_place_mono env st c x h
      rw [place_exists_congr x (insertStep_frame env _ c).2.1]
      exact h1

theorem processItems_checkin_mono (env : Env) (lastPulled : Nat)
    (items : List CheckinItem) : ∀ (st : LoopState) (x : String),
    checkin_exists st.db x = true →
    checkin_exists (processItems env lastPulled st items).1.db x = true := by
  induction items with
  | nil => intro st x h; exact h
  | cons c rest ih =>
    intro st x h
    simp only [processItems]
    split
    · exact h
    · apply ih
      apply insertStep_checkin_mono
      rw [checkin_exists_congr x (resolvePlaceStep_frame env st c).2.1]
      exact h

theorem processItems_nh_ge (env : Env) (lastPulled : Nat)
    (items : List CheckinItem) : ∀ st : LoopState,
    st.newHighest ≤ (processItems env lastPulled st items).1.newHighest := by
  induction items with
  | nil => intro st; exact Nat.le_refl _
  | cons c rest ih =>
    intro st
    simp only [processItems]
    split
    · exact Nat.le_refl _
    · refine Nat.le_trans ?_ (ih _)
      refine Nat.le_trans ?_ (insertStep_nh_ge env _ c)
      rw [(resolvePlaceStep_frame env st c).2.2.1]

theorem mem_takeWhile_impl {α : Type} {p q : α → Bool}
    (hpq : ∀ x, p x = true → q x = true) :
    ∀ (l : List α) (x : α), x ∈ l.takeWhile p → x ∈ l.takeWhile q := by
  intro l
  induction l with
  | nil => intro x h; simp [List.takeWhile] at h
  | cons a t ih =>
    intro x h
    by_cases hpa : p a = true
    · rw [List.takeWhile_cons_of_pos hpa] at h
      rw [List.takeWhile_cons_of_pos (hpq a hpa)]
      rcases List.mem_cons.mp h with rfl | h2
      · exact List.mem_cons_self _ _
      · exact List.mem_cons_of_mem _ (ih x h2)
    · rw [List.takeWhile_cons_of_neg hpa] at h
      simp at h

theorem processItems_cont (env : Env) (lastPulled : Nat)
    (items : List CheckinItem) : ∀ st : LoopState,
    (processItems env lastPulled st items).2.1 =
      items.all (okItem lastPulled) := by
  induction items with
  | nil => intro st; rfl
  | cons c rest ih =>
    intro st
    simp only [processItems]
    by_cases hb : boundaryHit lastPulled c = true
    · rw [if_pos hb]
      simp [okItem, hb]
    · rw [if_neg hb]
      simp only [List.all_cons, okItem, hb]
      rw [ih]
      simp [okItem]

theorem processItems_dead_after (env : Env) (lastPulled : Nat)
    (hsame : ∀ pid pd, env.fetchPlace pid = some pd →
      pd.fsqPlaceId = some pid) (items : List CheckinItem) :
    ∀ (st : LoopState), ∀ c' ∈ items.takeWhile (okItem lastPulled),
    insertOk (processItems env lastPulled st items).1.db c' = false ∧
    deadPlace env.fetchPlace c'
      (processItems env lastPulled st items).1.db := by
  induction items with
  | nil => intro st c' h; simp [List.takeWhile] at h
  | cons c rest ih =>
    intro st c' hmem
    by_cases hb : boundaryHit lastPulled c = true
    · rw [List.takeWhile_cons_of_neg (by simp [okItem, hb])] at hmem
      simp at hmem
    · rw [List.takeWhile_cons_of_pos (by simp [okItem, hb])] at hmem
      simp only [processItems, if_neg hb]
      rcases List.mem_cons.mp hmem with rfl | hmem2
      · have hdead1 : deadPlace env.fetchPlace c'
            (resolvePlaceStep env st c').1.db :=
          resolvePlaceStep_dead_after env st c' hsame
        have hdead2 : deadPlace env.fetchPlace c'
            (insertStep env (resolvePlaceStep env st c').1 c').1.db := by
          apply deadPlace_mono hdead1
          intro x hx
          rw [place_exists_congr x (insertStep_frame env _ c').2.1]
          exact hx
        have hins2 : insertOk
            (insertStep env (resolvePlaceStep env st c').1 c').1.db c' =
            false := by
          by_cases hok2 :
            insertOk (resolvePlaceStep env st c').1.db c' = true
          · obtain ⟨cid, pid, created, hid, hv, hc, heq⟩ :=
              @insert_checkin_true (resolvePlaceStep env st c').1.db c'
                env.now env.userId hok2
            have hfst : (insert_checkin env.now
                (resolvePlaceStep env st c').1.db c' env.userId).1 = true := by
              rw [heq]
            have hex2 : checkin_exists
                (insert_checkin env.now
                  (resolvePlaceStep env st c').1.db c' env.userId).2 cid =
                true := by
              rw [heq]
              unfold checkin_exists
              simp [checkinRowOf]
            unfold insertStep
            rw [if_pos hfst]
            unfold insertOk
            rw [hid]
            simp [hex2]
          · have hok2f : insertOk (resolvePlaceStep env st c').1.db c' =
                false := by simpa using hok2
            exact insertOk_mono_false hok2f
              (fun x hx => insertStep_checkin_mono env _ c' x hx)
        constructor
        · apply insertOk_mono_false hins2
          intro x hx
          exact processItems_checkin_mono env lastPulled rest _ x hx
        · apply deadPlace_mono hdead2
          intro x hx
          exact processItems_place_mono env lastPulled rest _ x hx
      · exact ih _ c' hmem2

theorem processItems_dead_noop (env : Env) (lastPulled : Nat) (D : DB)
    (items : List CheckinItem) : ∀ st : LoopState, st.db = D →
    (∀ c ∈ items.takeWhile (okItem lastPulled),
      insertOk D c = false ∧ deadPlace env.fetchPlace c D) →
    (processItems env lastPulled st items).1.db = D ∧
    (processItems env lastPulled st items).1.newHighest = st.newHighest ∧
    (processItems env lastPulled st items).1.stats.checkins_pulled =
      st.stats.checkins_pulled ∧
    (processItems env lastPulled st items).1.stats.places_pulled =
      st.stats.places_pulled ∧
    insertedCreateds (processItems env lastPulled st items).2.2 = [] := by
  induction items with
  | nil =>
    intro st hdb _
    exact ⟨hdb, rfl, rfl, rfl, rfl⟩
  | cons c rest ih =>
    intro st hdb hdead
    by_cases hb : boundaryHit lastPulled c = true
    · simp only [processItems, if_pos hb]
      simp [hdb, insertedCreateds]
    · simp only [processItems, if_neg hb]
      have hok : okItem lastPulled c = true := by simp [okItem, hb]
      obtain ⟨hinsD, hplD⟩ := hdead c (by
        rw [List.takeWhile_cons_of_pos hok]
        exact List.mem_cons_self _ _)
      have hnoopP := resolvePlaceStep_dead_noop env st c (hdb ▸ hplD)
      have hdb1 : (resolvePlaceStep env st c).1.db = D := by
        rw [hnoopP.1, hdb]
      have hnoopI := insertStep_dead_noop env (resolvePlaceStep env st c).1 c
        (by rw [hdb1]; exact hinsD)
      rw [hnoopI]
      obtain ⟨h1, h2, h3, h4, h5⟩ := ih (resolvePlaceStep env st c).1 hdb1
        (fun c2 hm => hdead c2 (by
          rw [List.takeWhile_cons_of_pos hok]
          exact List.mem_cons_of_mem _ hm))
      refine ⟨h1, ?_, ?_, ?_, ?_⟩
      · rw [h2, (resolvePlaceStep_frame env st c).2.2.1]
      · rw [h3, (resolvePlaceStep_frame env st c).2.2.2.1]
      · rw [h4, hnoopP.2]
      · have : insertedCreateds ((resolvePlaceStep env st c).2 ++ [] ++
            (processItems env lastPulled (resolvePlaceStep env st c).1
              rest).2.2) = [] := by
          unfold insertedCreateds at h5 ⊢
          rw [List.filterMap_append, List.filterMap_append]
          rw [h5]
          unfold resolvePlaceStep
          repeat' split
          all_goals simp
        simpa using this

theorem pullLoop_frame (env : Env) (lastPulled : Nat) :
    ∀ (fuel k : Nat) (st stF : LoopState) (tr : List Event),
    pullLoop env lastPulled fuel k st = some (stF, tr) →
    stF.db.users = st.db.users ∧
    stF.stats.start_time = st.stats.start_time ∧
    st.newHighest ≤ stF.newHighest ∧
    (∀ x, place_exists st.db x = true → place_exists stF.db x = true) ∧
    (∀ x, checkin_exists st.db x = true → checkin_exists stF.db x = true) := by
  intro fuel
  induction fuel with
  | zero =>
    intro k st stF tr h
    simp [pullLoop] at h
  | succ n ih =>
    intro k st stF tr h
    simp only [pullLoop] at h
    cases hpg : env.fetchPage k with
    | none =>
      simp only [hpg] at h
      injection h with h1
      injection h1 with h2 h3
      subst h2
      exact ⟨rfl, rfl, Nat.le_refl _, fun x hx => hx, fun x hx => hx⟩
    | some items =>
      simp only [hpg] at h
      by_cases hemp : items.isEmpty = true
      · simp only [hemp, if_true] at h
        injection h with h1
        injection h1 with h2 h3
        subst h2
        exact ⟨rfl, rfl, Nat.le_refl _, fun x hx => hx, fun x hx => hx⟩
      · simp only [hemp, if_false] at h
        by_cases hstop : (processItems env lastPulled
            { st with stats := { st.stats with
              api_requests := st.stats.api_requests + 1 } } items).2.1 =
              false ∨ items.length < CHECKINS_LIMIT
        · rw [if_pos hstop] at h
          injection h with h1
          injection h1 with h2 h3
          subst h2
          refine ⟨?_, ?_, ?_, ?_, ?_⟩
          · rw [processItems_users]
          · rw [processItems_start_time]
          · exact processItems_nh_ge env lastPulled items
              { st with stats := { st.stats with
                api_requests := st.stats.api_requests + 1 } }
          · intro x hx
            exact processItems_place_mono env lastPulled items _ x hx
          · intro x hx
            exact processItems_checkin_mono env lastPulled items _ x hx
        · rw [if_neg hstop] at h
          cases hrec : pullLoop env lastPulled n (k + 1)
              (processItems env lastPulled
                { st with stats := { st.stats with
                  api_requests := st.stats.api_requests + 1 } } items).1 with
          | none => rw [hrec] at h; cases h
          | some p =>
            obtain ⟨stF2, tr2⟩ := p
            rw [hrec] at h
            injection h with h1
            injection h1 with h2 h3
            subst h2
            obtain ⟨i1, i2, i3, i4, i5⟩ := ih (k + 1) _ _ _ hrec
            refine ⟨?_, ?_, ?_, ?_, ?_⟩
            · rw [i1, processItems_users]
            · rw [i2, processItems_start_time]
            · exact Nat.le_trans
                (processItems_nh_ge env lastPulled items
                  { st with stats := { st.stats with
                    api_requests := st.stats.api_requests + 1 } }) i3
            · intro x hx
              exact i4 x (processItems_place_mono env lastPulled items _ x hx)
            · intro x hx
              exact i5 x
                (processItems_checkin_mono env lastPulled items _ x hx)

theorem okItem_mono {T T2 : Nat} (hT : T ≤ T2) (c : CheckinItem)
    (h : okItem T2 c = true) : okItem T c = true := by
  simp only [okItem, boundaryHit, Bool.not_eq_true',
    decide_eq_false_iff_not] at h ⊢
  omega

theorem all_okItem_mono {T T2 : Nat} (hT : T ≤ T2)
    (items : List CheckinItem) (h : items.all (okItem T) = false) :
    items.all (okItem T2) = false := by
  by_contra hx
  have h2 : items.all (okItem T2) = true := by
    cases hh : items.all (okItem T2)
    · exact absurd hh hx
    · rfl
  rw [List.all_eq_true] at h2
  have h3 : items.all (okItem T) = true :=
    List.all_eq_true.mpr (fun x hxm => okItem_mono hT x (h2 x hxm))
  rw [h3] at h
  cases h

theorem insertOk_congr {db db2 : DB} (c : CheckinItem)
    (h : db2.checkins = db.checkins) : insertOk db2 c = insertOk db c := by
  unfold insertOk checkin_exists
  simp only [h]

theorem deadPlace_congr {fp : String → Option PlaceData} {c : CheckinItem}
    {db db2 : DB} (h : db2.places = db.places)
    (hd : deadPlace fp c db) : deadPlace fp c db2 := by
  intro pid hv hp
  rcases hd pid hv hp with h1 | h1 | h1
  · left
    rw [place_exists_congr pid h]
    exact h1
  · exact Or.inr (Or.inl h1)
  · exact Or.inr (Or.inr h1)

/-- From any point of a terminating first run, a second run over the same
remote responses, started against the first run's final store contents and
a watermark at least the first run's one, changes nothing: it inserts no
checkin, stores no place, keeps the store and the tracked maximum exactly
as they were.  Place responses are assumed to carry the requested
identifier. -/
theorem pullLoop_idem (env1 env2 : Env) (T T2 : Nat)
    (henvP : env2.fetchPage = env1.fetchPage)
    (henvL : env2.fetchPlace = env1.fetchPlace)
    (hsame : ∀ pid pd, env1.fetchPlace pid = some pd →
      pd.fsqPlaceId = some pid)
    (hT : T ≤ T2) :
    ∀ (fuel k : Nat) (st1 stF : LoopState) (tr1 : List Event)
      (st2 : LoopState),
    pullLoop env1 T fuel k st1 = some (stF, tr1) →
    st2.db.places = stF.db.places →
    st2.db.checkins = stF.db.checkins →
    ∃ st2F tr2,
      pullLoop env2 T2 fuel k st2 = some (st2F, tr2) ∧
      st2F.db = st2.db ∧
      st2F.newHighest = st2.newHighest ∧
      st2F.stats.checkins_pulled = st2.stats.checkins_pulled ∧
      st2F.stats.places_pulled = st2.stats.places_pulled := by
  intro fuel
  induction fuel with
  | zero =>
    intro k st1 stF tr1 st2 h hpl hck
    simp [pullLoop] at h
  | succ n ih =>
    intro k st1 stF tr1 st2 h hpl hck
    simp only [pullLoop] at h ⊢
    cases hpg : env1.fetchPage k with
    | none =>
      simp only [hpg] at h
      injection h with h1
      injection h1 with h2 h3
      subst h2
      simp only [henvP, hpg]
      exact ⟨_, _, rfl, rfl, rfl, rfl, rfl⟩
    | some items =>
      simp only [hpg] at h
      simp only [henvP, hpg]
      by_cases hemp : items.isEmpty = true
      · simp only [hemp, if_true] at h ⊢
        injection h with h1
        injection h1 with h2 h3
        subst h2
        exact ⟨_, _, rfl, rfl, rfl, rfl, rfl⟩
      · simp only [hemp, if_false] at h ⊢
        by_cases hstop : (processItems env1 T
            { st1 with stats := { st1.stats with
              api_requests := st1.stats.api_requests + 1 } } items).2.1 =
              false ∨ items.length < CHECKINS_LIMIT
        · rw [if_pos hstop] at h
          injection h with h1
          injection h1 with h2 h3
          subst h2
          have hdeadF : ∀ c ∈ items.takeWhile (okItem T),
              insertOk (processItems env1 T
                { st1 with stats := { st1.stats with
                  api_requests := st1.stats.api_requests + 1 } }
                items).1.db c = false ∧
              deadPlace env1.fetchPlace c (processItems env1 T
                { st1 with stats := { st1.stats with
                  api_requests := st1.stats.api_requests + 1 } }
                items).1.db :=
            fun c hc => processItems_dead_after env1 T hsame items _ c hc
          have hdead2 : ∀ c ∈ items.takeWhile (okItem T2),
              insertOk st2.db c = false ∧
              deadPlace env2.fetchPlace c st2.db := by
            intro c hc
            have hcT : c ∈ items.takeWhile (okItem T) :=
              mem_takeWhile_impl (fun x => okItem_mono hT x) items c hc
            obtain ⟨hi, hp⟩ := hdeadF c hcT
            constructor
            · rw [insertOk_congr c hck]
              exact hi
            · rw [henvL]
              exact deadPlace_congr hpl hp
          obtain ⟨n1, n2, n3, n4, n5⟩ := processItems_dead_noop env2 T2
            st2.db items
            { st2 with stats := { st2.stats with
              api_requests := st2.stats.api_requests + 1 } } rfl hdead2
          have hstop2 : (processItems env2 T2
              { st2 with stats := { st2.stats with
                api_requests := st2.stats.api_requests + 1 } } items).2.1 =
                false ∨ items.length < CHECKINS_LIMIT := by
            rcases hstop with hc1 | hc2
            · left
              rw [processItems_cont] at hc1 ⊢
              exact all_okItem_mono hT items hc1
            · right
              exact hc2
          simp only [if_pos hstop2]
          exact ⟨_, _, rfl, n1, n2, n3, n4⟩
        · rw [if_neg hstop] at h
          cases hrec : pullLoop env1 T n (k + 1)
              (processItems env1 T
                { st1 with stats := { st1.stats with
                  api_requests := st1.stats.api_requests + 1 } }
                items).1 with
          | none => rw [hrec] at h; cases h
          | some p =>
            obtain ⟨stF2, trr⟩ := p
            rw [hrec] at h
            injection h with h1
            injection h1 with h2 h3
            subst h2
            obtain ⟨u1, u2, u3, i4, i5⟩ :=
              pullLoop_frame env1 T n (k + 1) _ _ _ hrec
            have hdeadF : ∀ c ∈ items.takeWhile (okItem T),
                insertOk stF2.db c = false ∧
                deadPlace env1.fetchPlace c stF2.db := by
              intro c hc
              obtain ⟨hi, hp⟩ :=
                processItems_dead_after env1 T hsame items _ c hc
              exact ⟨insertOk_mono_false hi i5, deadPlace_mono hp i4⟩
            have hdead2 : ∀ c ∈ items.takeWhile (okItem T2),
                insertOk st2.db c = false ∧
                deadPlace env2.fetchPlace c st2.db := by
              intro c hc
              have hcT : c ∈ items.takeWhile (okItem T) :=
                mem_takeWhile_impl (fun x => okItem_mono hT x) items c hc
              obtain ⟨hi, hp⟩ := hdeadF c hcT
              constructor
              · rw [insertOk_congr c hck]
                exact hi
              · rw [henvL]
                exact deadPlace_congr hpl hp
            obtain ⟨n1, n2, n3, n4, n5⟩ := processItems_dead_noop env2 T2
              st2.db items
              { st2 with stats := { st2.stats with
                api_requests := st2.stats.api_requests + 1 } } rfl hdead2
            by_cases hstop2 : (processItems env2 T2
                { st2 with stats := { st2.stats with
                  api_requests := st2.stats.api_requests + 1 } }
                items).2.1 = false ∨ items.length < CHECKINS_LIMIT
            · simp only [if_pos hstop2]
              exact ⟨_, _, rfl, n1, n2, n3, n4⟩
            · simp only [if_neg hstop2]
              obtain ⟨st2F, tr2, hrun2, q1, q2, q3, q4⟩ :=
                ih (k + 1) _ stF2 trr
                  (processItems env2 T2
                    { st2 with stats := { st2.stats with
                      api_requests := st2.stats.api_requests + 1 } }
                    items).1 hrec
                  (by rw [n1, hpl]) (by rw [n1, hck])
              simp only [hrun2]
              refine ⟨st2F, _, rfl, ?_, ?_, ?_, ?_⟩
              · rw [q1, n1]
              · rw [q2, n2]
              · rw [q3, n3]
              · rw [q4, n4]

theorem pull_cases {env : Env} {fuel : Nat} {db dbF : DB} {s : PullStats}
    {tr : List Event}
    (h : pull_checkins_for_user env fuel db = some (dbF, s, tr)) :
    ∃ stF, pullLoop env ((get_last_pulled_timestamp db env.userId).getD 0)
        fuel 0
        { db := db,
          stats := { checkins_pulled := 0,
                     places_pulled := 0,
                     api_requests := 0,
                     start_time := env.moduleLoadTime },
          newHighest :=
            (get_last_pulled_timestamp db env.userId).getD 0 } =
      some (stF, tr) ∧
    s = stF.stats ∧
    dbF = (if (get_last_pulled_timestamp db env.userId).getD 0 <
        stF.newHighest then
      update_last_pulled_timestamp env.now stF.db env.userId stF.newHighest
    else stF.db) := by
  unfold pull_checkins_for_user at h
  cases hl : pullLoop env ((get_last_pulled_timestamp db env.userId).getD 0)
      fuel 0
      { db := db,
        stats := { checkins_pulled := 0,
                   places_pulled := 0,
                   api_requests := 0,
                   start_time := env.moduleLoadTime },
        newHighest := (get_last_pulled_timestamp db env.userId).getD 0 } with
  | none =>
    simp only [hl] at h
    cases h
  | some p =>
    obtain ⟨stF, tr2⟩ := p
    simp only [hl, Option.some.injEq, Prod.mk.injEq] at h
    obtain ⟨h2, h4, h5⟩ := h
    subst h5
    exact ⟨stF, rfl, h4.symm, h2.symm⟩

theorem get_last_pulled_timestamp_congr {db db2 : DB} (uid : String)
    (h : db2.users = db.users) :
    get_last_pulled_timestamp db2 uid = get_last_pulled_timestamp db uid := by
  unfold get_last_pulled_timestamp
  rw [h]

theorem pull_watermark_facts {env : Env} {fuel : Nat} {db dbF : DB}
    {s : PullStats} {tr : List Event}
    (h : pull_checkins_for_user env fuel db = some (dbF, s, tr)) :
    ∃ stF, pullLoop env ((get_last_pulled_timestamp db env.userId).getD 0)
        fuel 0
        { db := db,
          stats := { checkins_pulled := 0,
                     places_pulled := 0,
                     api_requests := 0,
                     start_time := env.moduleLoadTime },
          newHighest :=
            (get_last_pulled_timestamp db env.userId).getD 0 } =
      some (stF, tr) ∧
    dbF.places = stF.db.places ∧
    dbF.checkins = stF.db.checkins ∧
    (get_last_pulled_timestamp db env.userId).getD 0 ≤
      (get_last_pulled_timestamp dbF env.userId).getD 0 := by
  obtain ⟨stF, hl, hs, hdbF⟩ := pull_cases h
  have husers : stF.db.users = db.users :=
    (pullLoop_frame env _ fuel 0 _ _ _ hl).1
  refine ⟨stF, hl, ?_, ?_, ?_⟩
  · rw [hdbF]
    split
    · rw [update_last_pulled_timestamp_places]
    · rfl
  · rw [hdbF]
    split
    · rw [update_last_pulled_timestamp_checkins]
    · rfl
  · rw [hdbF]
    split
    · rw [get_last_pulled_timestamp_update]
      simp only [Option.getD_some]
      omega
    · rw [get_last_pulled_timestamp_congr env.userId husers]

/-- C2, amended: identical second run, only the clock readings may change
between the two runs; every place-details response carries the requested
place identifier. -/
theorem pull_checkins_for_user_idempotent (env1 : Env)
    (now2 mlt2 rst2 fuel : Nat) (db db1 : DB) (s1 : PullStats)
    (tr1 : List Event)
    (hsame : ∀ pid pd, env1.fetchPlace pid = some pd →
      pd.fsqPlaceId = some pid)
    (h1 : pull_checkins_for_user env1 fuel db = some (db1, s1, tr1)) :
    ∃ s2 tr2,
      pull_checkins_for_user
        { env1 with now := now2, moduleLoadTime := mlt2,
                    runStartTime := rst2 } fuel db1 =
        some (db1, s2, tr2) ∧
      s2.checkins_pulled = 0 ∧ s2.places_pulled = 0 := by
  obtain ⟨stF, hloop1, hpl, hck, hT⟩ := pull_watermark_facts h1
  obtain ⟨st2F, tr2, hrun2, e1, e2, e3, e4⟩ :=
    pullLoop_idem env1
      { env1 with now := now2, moduleLoadTime := mlt2,
                  runStartTime := rst2 }
      ((get_last_pulled_timestamp db env1.userId).getD 0)
      ((get_last_pulled_timestamp db1 env1.userId).getD 0)
      rfl rfl hsame hT fuel 0 _ stF tr1
      { db := db1,
        stats := { checkins_pulled := 0,
                   places_pulled := 0,
                   api_requests := 0,
                   start_time := mlt2 },
        newHighest :=
          (get_last_pulled_timestamp db1 env1.userId).getD 0 }
      hloop1 hpl hck
  refine ⟨st2F.stats, tr2, ?_, ?_, ?_⟩
  · unfold pull_checkins_for_user
    simp only [hrun2]
    have hnoupd : ¬ ((get_last_pulled_timestamp db1 env1.userId).getD 0 <
        st2F.newHighest) := by
      rw [e2]
      exact Nat.lt_irrefl _
    simp only [hnoupd, if_false]
    rw [e1]
  · exact e3
  · exact e4

theorem resolvePlaceStep_no_inserted (env : Env) (st : LoopState)
    (c : CheckinItem) :
    insertedCreateds (resolvePlaceStep env st c).2 = [] := by
  unfold resolvePlaceStep
  repeat' split
  all_goals simp [insertedCreateds]

theorem resolvePlaceStep_no_page (env : Env) (st : LoopState)
    (c : CheckinItem) (j : Nat) (b : Bool) :
    Event.pageRequest j b ∉ (resolvePlaceStep env st c).2 := by
  unfold resolvePlaceStep
  repeat' split
  all_goals simp

theorem insertStep_events (env : Env) (st : LoopState) (c : CheckinItem) :
    ((insertStep env st c).2 = [] ∧
     (insertStep env st c).1.newHighest = st.newHighest) ∨
    ((insertStep env st c).2 =
       [.checkinInserted (c.id.getD "") (c.createdAt.getD 0)] ∧
     (insertStep env st c).1.newHighest =
       (if st.newHighest < c.createdAt.getD 0 then c.createdAt.getD 0
        else st.newHighest)) := by
  unfold insertStep
  split
  · right
    exact ⟨rfl, rfl⟩
  · left
    exact ⟨rfl, rfl⟩

theorem insertStep_no_page (env : Env) (st : LoopState) (c : CheckinItem)
    (j : Nat) (b : Bool) :
    Event.pageRequest j b ∉ (insertStep env st c).2 := by
  unfold insertStep
  split
  all_goals simp

theorem processItems_nh_spec (env : Env) (lastPulled : Nat)
    (items : List CheckinItem) : ∀ st : LoopState,
    (∀ cr ∈ insertedCreateds (processItems env lastPulled st items).2.2,
      cr ≤ (processItems env lastPulled st items).1.newHighest) ∧
    ((processItems env lastPulled st items).1.newHighest = st.newHighest ∨
     (processItems env lastPulled st items).1.newHighest ∈
       insertedCreateds (processItems env lastPulled st items).2.2) := by
  induction items with
  | nil =>
    intro st
    constructor
    · intro cr h
      simp [insertedCreateds, processItems] at h
    · exact Or.inl rfl
  | cons c rest ih =>
    intro st
    by_cases hb : boundaryHit lastPulled c = true
    · constructor
      · intro cr h
        simp [processItems, if_pos hb, insertedCreateds] at h
      · left
        simp [processItems, if_pos hb]
    · simp only [processItems, if_neg hb]
      obtain ⟨ihA, ihB⟩ := ih (insertStep env (resolvePlaceStep env st c).1 c).1
      have hic : insertedCreateds ((resolvePlaceStep env st c).2 ++
          (insertStep env (resolvePlaceStep env st c).1 c).2 ++
          (processItems env lastPulled
            (insertStep env (resolvePlaceStep env st c).1 c).1 rest).2.2) =
          insertedCreateds (insertStep env (resolvePlaceStep env st c).1 c).2
            ++ insertedCreateds (processItems env lastPulled
              (insertStep env (resolvePlaceStep env st c).1 c).1 rest).2.2 := by
        unfold insertedCreateds
        rw [List.filterMap_append, List.filterMap_append]
        rw [show (List.filterMap (fun e =>
            match e with
            | .checkinInserted _ cr => some cr
            | _ => none) (resolvePlaceStep env st c).2) = [] from
          resolvePlaceStep_no_inserted env st c]
        rw [List.nil_append]
      have hnhge : (insertStep env (resolvePlaceStep env st c).1 c).1.newHighest
          ≤ (processItems env lastPulled
            (insertStep env (resolvePlaceStep env st c).1 c).1
            rest).1.newHighest :=
        processItems_nh_ge env lastPulled rest _
      constructor
      · intro cr hcr
        rw [hic] at hcr
        rcases List.mem_append.mp hcr with hcr2 | hcr2
        · rcases insertStep_events env (resolvePlaceStep env st c).1 c with
            ⟨he, _⟩ | ⟨he, hnh⟩
          · rw [he] at hcr2
            simp [insertedCreateds] at hcr2
          · rw [he] at hcr2
            simp only [insertedCreateds, List.filterMap_cons,
              List.filterMap_nil] at hcr2
            have hcr3 : cr = c.createdAt.getD 0 := by
              simpa using hcr2
            subst hcr3
            refine Nat.le_trans ?_ hnhge
            rw [hnh]
            split
            · exact Nat.le_refl _
            · omega
        · exact ihA cr hcr2
      · rcases ihB with hB | hB
        · rcases insertStep_events env (resolvePlaceStep env st c).1 c with
            ⟨he, hnh⟩ | ⟨he, hnh⟩
          · left
            rw [hB, hnh, (resolvePlaceStep_frame env st c).2.2.1]
          · rw [hB, hnh]
            split
            · right
              rw [hic, he]
              simp [insertedCreateds]
            · left
              exact (resolvePlaceStep_frame env st c).2.2.1
        · right
          rw [hic]
          exact List.mem_append.mpr (Or.inr hB)

theorem processItems_no_page (env : Env) (lastPulled : Nat)
    (items : List CheckinItem) : ∀ (st : LoopState) (j : Nat) (b : Bool),
    Event.pageRequest j b ∉ (processItems env lastPulled st items).2.2 := by
  induction items with
  | nil =>
    intro st j b
    simp [processItems]
  | cons c rest ih =>
    intro st j b
    by_cases hb : boundaryHit lastPulled c = true
    · simp [processItems, if_pos hb]
    · simp only [processItems, if_neg hb]
      intro hmem
      rcases List.mem_append.mp hmem with hmem2 | hmem2
      · rcases List.mem_append.mp hmem2 with hmem3 | hmem3
        · exact resolvePlaceStep_no_page env st c j b hmem3
        · exact insertStep_no_page env _ c j b hmem3
      · exact ih _ j b hmem2

theorem processItems_inserted_gt (env : Env) (lastPulled : Nat)
    (hT : 0 < lastPulled) (items : List CheckinItem) :
    ∀ (st : LoopState) (cr : Nat),
    cr ∈ insertedCreateds (processItems env lastPulled st items).2.2 →
    lastPulled < cr := by
  induction items with
  | nil =>
    intro st cr h
    simp [insertedCreateds, processItems] at h
  | cons c rest ih =>
    intro st cr h
    by_cases hb : boundaryHit lastPulled c = true
    · simp [processItems, if_pos hb, insertedCreateds] at h
    · simp only [processItems, if_neg hb] at h
      have hgt : lastPulled < c.createdAt.getD 0 := by
        simp only [boundaryHit, decide_eq_true_eq, not_and, Nat.not_le] at hb
        omega
      unfold insertedCreateds at h
      rw [List.filterMap_append, List.filterMap_append] at h
      rcases List.mem_append.mp h with h2 | h2
      · rcases List.mem_append.mp h2 with h3 | h3
        · rw [show (List.filterMap (fun e =>
              match e with
              | .checkinInserted _ cr => some cr
              | _ => none) (resolvePlaceStep env st c).2) = [] from
            resolvePlaceStep_no_inserted env st c] at h3
          exact absurd h3 (List.not_mem_nil cr)
        · rcases insertStep_events env (resolvePlaceStep env st c).1 c with
            ⟨he, _⟩ | ⟨he, _⟩
          · rw [he] at h3
            simp at h3
          · rw [he] at h3
            simp only [List.filterMap_cons, List.filterMap_nil] at h3
            have : cr = c.createdAt.getD 0 := by simpa using h3
            omega
      · exact ih _ cr h2

theorem pullLoop_nh_spec (env : Env) (lastPulled : Nat) :
    ∀ (fuel k : Nat) (st stF : LoopState) (tr : List Event),
    pullLoop env lastPulled fuel k st = some (stF, tr) →
    (∀ cr ∈ insertedCreateds tr, cr ≤ stF.newHighest) ∧
    (stF.newHighest = st.newHighest ∨
     stF.newHighest ∈ insertedCreateds tr) := by
  intro fuel
  induction fuel with
  | zero =>
    intro k st stF tr h
    simp [pullLoop] at h
  | succ n ih =>
    intro k st stF tr h
    simp only [pullLoop] at h
    cases hpg : env.fetchPage k with
    | none =>
      simp only [hpg] at h
      injection h with h1
      injection h1 with h2 h3
      subst h2
      subst h3
      constructor
      · intro cr hcr
        simp [insertedCreateds] at hcr
      · exact Or.inl rfl
    | some items =>
      simp only [hpg] at h
      by_cases hemp : items.isEmpty = true
      · simp only [hemp, if_true] at h
        injection h with h1
        injection h1 with h2 h3
        subst h2
        subst h3
        constructor
        · intro cr hcr
          simp [insertedCreateds] at hcr
        · exact Or.inl rfl
      · simp only [hemp, if_false] at h
        by_cases hstop : (processItems env lastPulled
            { st with stats := { st.stats with
              api_requests := st.stats.api_requests + 1 } } items).2.1 =
              false ∨ items.length < CHECKINS_LIMIT
        · rw [if_pos hstop] at h
          injection h with h1
          injection h1 with h2 h3
          subst h2
          subst h3
          obtain ⟨pA, pB⟩ := processItems_nh_spec env lastPulled items
            { st with stats := { st.stats with
              api_requests := st.stats.api_requests + 1 } }
          constructor
          · intro cr hcr
            simp only [insertedCreateds, List.filterMap_cons] at hcr
            exact pA cr hcr
          · exact pB
        · rw [if_neg hstop] at h
          cases hrec : pullLoop env lastPulled n (k + 1)
              (processItems env lastPulled
                { st with stats := { st.stats with
                  api_requests := st.stats.api_requests + 1 } }
                items).1 with
          | none => rw [hrec] at h; cases h
          | some p =>
            obtain ⟨stF2, trr⟩ := p
            rw [hrec] at h
            injection h with h1
            injection h1 with h2 h3
            subst h2
            subst h3
            obtain ⟨pA, pB⟩ := processItems_nh_spec env lastPulled items
              { st with stats := { st.stats with
                api_requests := st.stats.api_requests + 1 } }
            obtain ⟨iA, iB⟩ := ih (k + 1) _ _ _ hrec
            have hge : (processItems env lastPulled
                { st with stats := { st.stats with
                  api_requests := st.stats.api_requests + 1 } }
                items).1.newHighest ≤ stF2.newHighest :=
              (pullLoop_frame env lastPulled n (k + 1) _ _ _ hrec).2.2.1
            have hic : insertedCreateds ((Event.pageRequest k true ::
                (processItems env lastPulled
                  { st with stats := { st.stats with
                    api_requests := st.stats.api_requests + 1 } }
                  items).2.2) ++ trr) =
                insertedCreateds (processItems env lastPulled
                  { st with stats := { st.stats with
                    api_requests := st.stats.api_requests + 1 } }
                  items).2.2 ++ insertedCreateds trr := by
              unfold insertedCreateds
              rw [List.filterMap_append, List.filterMap_cons]
            constructor
            · intro cr hcr
              rw [hic] at hcr
              rcases List.mem_append.mp hcr with h2 | h2
              · exact Nat.le_trans (pA cr h2) hge
              · exact iA cr h2
            · rcases iB with hB | hB
              · rcases pB with hB2 | hB2
                · left
                  rw [hB, hB2]
                · right
                  rw [hic, hB]
                  exact List.mem_append.mpr (Or.inl hB2)
              · right
                rw [hic]
                exact List.mem_append.mpr (Or.inr hB)

theorem pullLoop_inserted_gt (env : Env) (lastPulled : Nat)
    (hT : 0 < lastPulled) :
    ∀ (fuel k : Nat) (st stF : LoopState) (tr : List Event),
    pullLoop env lastPulled fuel k st = some (stF, tr) →
    ∀ cr ∈ insertedCreateds tr, lastPulled < cr := by
  intro fuel
  induction fuel with
  | zero =>
    intro k st stF tr h
    simp [pullLoop] at h
  | succ n ih =>
    intro k st stF tr h
    simp only [pullLoop] at h
    cases hpg : env.fetchPage k with
    | none =>
      simp only [hpg] at h
      injection h with h1
      injection h1 with h2 h3
      subst h3
      intro cr hcr
      simp [insertedCreateds] at hcr
    | some items =>
      simp only [hpg] at h
      by_cases hemp : items.isEmpty = true
      · simp only [hemp, if_true] at h
        injection h with h1
        injection h1 with h2 h3
        subst h3
        intro cr hcr
        simp [insertedCreateds] at hcr
      · simp only [hemp, if_false] at h
        by_cases hstop : (processItems env lastPulled
            { st with stats := { st.stats with
              api_requests := st.stats.api_requests + 1 } } items).2.1 =
              false ∨ items.length < CHECKINS_LIMIT
        · rw [if_pos hstop] at h
          injection h with h1
          injection h1 with h2 h3
          subst h3
          intro cr hcr
          simp only [insertedCreateds, List.filterMap_cons] at hcr
          exact processItems_inserted_gt env lastPulled hT items _ cr hcr
        · rw [if_neg hstop] at h
          cases hrec : pullLoop env lastPulled n (k + 1)
              (processItems env lastPulled
                { st with stats := { st.stats with
                  api_requests := st.stats.api_requests + 1 } }
                items).1 with
          | none => rw [hrec] at h; cases h
          | some p =>
            obtain ⟨stF2, trr⟩ := p
            rw [hrec] at h
            injection h with h1
            injection h1 with h2 h3
            subst h3
            intro cr hcr
            unfold insertedCreateds at hcr
            rw [List.filterMap_append, List.filterMap_cons] at hcr
            rcases List.mem_append.mp hcr with h2 | h2
            · exact processItems_inserted_gt env lastPulled hT items _ cr h2
            · exact ih (k + 1) _ _ _ hrec cr h2

theorem pullLoop_pages (env : Env) (lastPulled : Nat) :
    ∀ (fuel k : Nat) (st stF : LoopState) (tr : List Event),
    pullLoop env lastPulled fuel k st = some (stF, tr) →
    (∀ j b, Event.pageRequest j b ∈ tr → k ≤ j) ∧
    (∀ j items2, env.fetchPage j = some items2 →
      items2.all (okItem lastPulled) = false →
      Event.pageRequest j true ∈ tr →
      ∀ j2 b2, Event.pageRequest j2 b2 ∈ tr → j2 ≤ j) := by
  intro fuel
  induction fuel with
  | zero =>
    intro k st stF tr h
    simp [pullLoop] at h
  | succ n ih =>
    intro k st stF tr h
    simp only [pullLoop] at h
    cases hpg : env.fetchPage k with
    | none =>
      simp only [hpg] at h
      injection h with h1
      injection h1 with h2 h3
      subst h3
      constructor
      · intro j b hj
        simp only [List.mem_singleton] at hj
        injection hj with hj1 hj2
        omega
      · intro j items2 hfj hall hj j2 b2 hj2
        simp only [List.mem_singleton] at hj hj2
        simp at hj
    | some items =>
      simp only [hpg] at h
      by_cases hemp : items.isEmpty = true
      · simp only [hemp, if_true] at h
        injection h with h1
        injection h1 with h2 h3
        subst h3
        constructor
        · intro j b hj
          simp only [List.mem_singleton] at hj
          injection hj with hj1 hj2
          omega
        · intro j items2 hfj hall hj j2 b2 hj2
          simp only [List.mem_singleton] at hj hj2
          injection hj with hja hjb
          injection hj2 with hj2a hj2b
          omega
      · simp only [hemp, if_false] at h
        by_cases hstop : (processItems env lastPulled
            { st with stats := { st.stats with
              api_requests := st.stats.api_requests + 1 } } items).2.1 =
              false ∨ items.length < CHECKINS_LIMIT
        · rw [if_pos hstop] at h
          injection h with h1
          injection h1 with h2 h3
          subst h3
          have hmem : ∀ j b, Event.pageRequest j b ∈
              (Event.pageRequest k true :: (processItems env lastPulled
                { st with stats := { st.stats with
                  api_requests := st.stats.api_requests + 1 } }
                items).2.2) → j = k := by
            intro j b hj
            rcases List.mem_cons.mp hj with hj1 | hj1
            · simp only [Event.pageRequest.injEq] at hj1
              exact hj1.1
            · exact absurd hj1 (processItems_no_page env lastPulled items _ j b)
          constructor
          · intro j b hj
            have := hmem j b hj
            omega
          · intro j items2 hfj hall hj j2 b2 hj2
            have h1 := hmem j true hj
            have h2 := hmem j2 b2 hj2
            omega
        · rw [if_neg hstop] at h
          cases hrec : pullLoop env lastPulled n (k + 1)
              (processItems env lastPulled
                { st with stats := { st.stats with
                  api_requests := st.stats.api_requests + 1 } }
                items).1 with
          | none => rw [hrec] at h; cases h
          | some p =>
            obtain ⟨stF2, trr⟩ := p
            rw [hrec] at h
            injection h with h1
            injection h1 with h2 h3
            subst h3
            obtain ⟨ih1, ih2⟩ := ih (k + 1) _ _ _ hrec
            have hmem : ∀ j b, Event.pageRequest j b ∈
                ((Event.pageRequest k true :: (processItems env lastPulled
                  { st with stats := { st.stats with
                    api_requests := st.stats.api_requests + 1 } }
                  items).2.2) ++ trr) → j = k ∨
                  Event.pageRequest j b ∈ trr := by
              intro j b hj
              rcases List.mem_append.mp hj with hj1 | hj1
              · rcases List.mem_cons.mp hj1 with hj2 | hj2
                · injection hj2 with hja hjb
                  exact Or.inl hja
                · exact absurd hj2
                    (processItems_no_page env lastPulled items _ j b)
              · exact Or.inr hj1
            constructor
            · intro j b hj
              rcases hmem j b hj with hj1 | hj1
              · omega
              · have := ih1 j b hj1
                omega
            · intro j items2 hfj hall hj j2 b2 hj2
              rcases hmem j true hj with hj1 | hj1
              · subst hj1
                rw [hpg] at hfj
                injection hfj with hfj2
                subst hfj2
                have hcont : (processItems env lastPulled
                    { st with stats := { st.stats with
                      api_requests := st.stats.api_requests + 1 } }
                    items).2.1 = items.all (okItem lastPulled) :=
                  processItems_cont env lastPulled items _
                rw [hall] at hcont
                exact absurd (Or.inl hcont) hstop
              · have hjk : k + 1 ≤ j := ih1 j true hj1
                rcases hmem j2 b2 hj2 with hj3 | hj3
                · omega
                · exact ih2 j items2 hfj hall hj1 j2 b2 hj3

theorem processItems_takeWhile (env : Env) (lastPulled : Nat)
    (items : List CheckinItem) : ∀ st : LoopState,
    (processItems env lastPulled st items).1 =
      (processItems env lastPulled st
        (items.takeWhile (okItem lastPulled))).1 ∧
    (processItems env lastPulled st items).2.2 =
      (processItems env lastPulled st
        (items.takeWhile (okItem lastPulled))).2.2 := by
  induction items with
  | nil =>
    intro st
    exact ⟨rfl, rfl⟩
  | cons c rest ih =>
    intro st
    by_cases hb : boundaryHit lastPulled c = true
    · have htw : (c :: rest).takeWhile (okItem lastPulled) = [] :=
        List.takeWhile_cons_of_neg (by simp [okItem, hb])
      rw [htw]
      simp [processItems, if_pos hb]
    · have htw : (c :: rest).takeWhile (okItem lastPulled) =
          c :: rest.takeWhile (okItem lastPulled) :=
        List.takeWhile_cons_of_pos (by simp [okItem, hb])
      rw [htw]
      simp only [processItems, if_neg hb]
      obtain ⟨ih1, ih2⟩ :=
        ih (insertStep env (resolvePlaceStep env st c).1 c).1
      exact ⟨ih1, by rw [ih2]⟩

theorem mem_insertedCreateds {tr : List Event} {cid : String} {cr : Nat}
    (h : Event.checkinInserted cid cr ∈ tr) : cr ∈ insertedCreateds tr := by
  unfold insertedCreateds
  exact List.mem_filterMap.mpr ⟨Event.checkinInserted cid cr, h, rfl⟩

/-- C1: with a non-zero watermark T, a run only ever inserts checkins
with created_at above T; within a page the processing is exactly the
processing of the longest prefix of items above the cutoff (the boundary
item is neither inserted nor place-resolved, and nothing after it is
touched), the should_continue flag is the all-items-above-cutoff check,
and once a fetched page contains a boundary item no higher-numbered page
is ever requested in that run. -/
theorem C1_resumption_correctness (env : Env) (fuel : Nat) (db dbF : DB)
    (s : PullStats) (tr : List Event)
    (hrun : pull_checkins_for_user env fuel db = some (dbF, s, tr))
    (hT : 0 < (get_last_pulled_timestamp db env.userId).getD 0) :
    (∀ cid cr, Event.checkinInserted cid cr ∈ tr →
      (get_last_pulled_timestamp db env.userId).getD 0 < cr) ∧
    (∀ (st : LoopState) (items : List CheckinItem),
      (processItems env ((get_last_pulled_timestamp db env.userId).getD 0)
          st items).1 =
        (processItems env
          ((get_last_pulled_timestamp db env.userId).getD 0) st
          (items.takeWhile
            (okItem ((get_last_pulled_timestamp db env.userId).getD 0)))).1 ∧
      (processItems env ((get_last_pulled_timestamp db env.userId).getD 0)
          st items).2.2 =
        (processItems env
          ((get_last_pulled_timestamp db env.userId).getD 0) st
          (items.takeWhile
            (okItem
              ((get_last_pulled_timestamp db env.userId).getD 0)))).2.2 ∧
      (processItems env ((get_last_pulled_timestamp db env.userId).getD 0)
          st items).2.1 =
        items.all
          (okItem ((get_last_pulled_timestamp db env.userId).getD 0))) ∧
    (∀ j items2, env.fetchPage j = some items2 →
      items2.all
        (okItem ((get_last_pulled_timestamp db env.userId).getD 0)) =
        false →
      Event.pageRequest j true ∈ tr →
      ∀ j2 b2, Event.pageRequest j2 b2 ∈ tr → j2 ≤ j) := by
  obtain ⟨stF, hloop, hs, hdbF⟩ := pull_cases hrun
  refine ⟨?_, ?_, ?_⟩
  · intro cid cr hmem
    exact pullLoop_inserted_gt env _ hT fuel 0 _ _ _ hloop cr
      (mem_insertedCreateds hmem)
  · intro st items
    obtain ⟨e1, e2⟩ := processItems_takeWhile env _ items st
    exact ⟨e1, e2, processItems_cont env _ items st⟩
  · exact (pullLoop_pages env _ fuel 0 _ _ _ hloop).2

/-- C3: over one run the stored watermark never goes down; the users
relation is either untouched, or receives exactly one upsert for the
pulled user, carrying a value strictly above the prior watermark. -/
theorem C3_watermark_monotone (env : Env) (fuel : Nat) (db dbF : DB)
    (s : PullStats) (tr : List Event)
    (hrun : pull_checkins_for_user env fuel db = some (dbF, s, tr)) :
    (get_last_pulled_timestamp db env.userId).getD 0 ≤
      (get_last_pulled_timestamp dbF env.userId).getD 0 ∧
    (dbF.users = db.users ∨
      ∃ nh, (get_last_pulled_timestamp db env.userId).getD 0 < nh ∧
        dbF.users =
          db.users.filter (fun r => decide (r.userId ≠ env.userId)) ++
          [{ userId := env.userId, lastPulledTimestamp := nh,
             lastUpdatedAt := env.now, createdAt := env.now }] ∧
        (get_last_pulled_timestamp dbF env.userId).getD 0 = nh) := by
  obtain ⟨stF, hloop, hs, hdbF⟩ := pull_cases hrun
  have husers : stF.db.users = db.users :=
    (pullLoop_frame env _ fuel 0 _ _ _ hloop).1
  by_cases hupd : (get_last_pulled_timestamp db env.userId).getD 0 <
      stF.newHighest
  · rw [hdbF, if_pos hupd]
    have hwm : get_last_pulled_timestamp
        (update_last_pulled_timestamp env.now stF.db env.userId
          stF.newHighest) env.userId = some stF.newHighest :=
      get_last_pulled_timestamp_update env.now stF.db env.userId
        stF.newHighest
    constructor
    · rw [hwm]
      simp only [Option.getD_some]
      omega
    · right
      refine ⟨stF.newHighest, hupd, ?_, ?_⟩
      · unfold update_last_pulled_timestamp
        rw [husers]
      · rw [hwm]
        rfl
  · rw [hdbF, if_neg hupd]
    constructor
    · rw [get_last_pulled_timestamp_congr env.userId husers]
    · exact Or.inl husers

/-- C10: whenever a run moves the watermark, the new value is exactly the
maximum created_at among the checkins the run successfully inserted;
timestamps of items whose insert failed or was skipped never contribute. -/
theorem C10_advanced_watermark_is_max_inserted (env : Env) (fuel : Nat)
    (db dbF : DB) (s : PullStats) (tr : List Event)
    (hrun : pull_checkins_for_user env fuel db = some (dbF, s, tr))
    (hadv : (get_last_pulled_timestamp db env.userId).getD 0 <
      (get_last_pulled_timestamp dbF env.userId).getD 0) :
    (get_last_pulled_timestamp dbF env.userId).getD 0 ∈
      insertedCreateds tr ∧
    ∀ cr ∈ insertedCreateds tr,
      cr ≤ (get_last_pulled_timestamp dbF env.userId).getD 0 := by
  obtain ⟨stF, hloop, hs, hdbF⟩ := pull_cases hrun
  have husers : stF.db.users = db.users :=
    (pullLoop_frame env _ fuel 0 _ _ _ hloop).1
  by_cases hupd : (get_last_pulled_timestamp db env.userId).getD 0 <
      stF.newHighest
  · have hwmF : (get_last_pulled_timestamp dbF env.userId).getD 0 =
        stF.newHighest := by
      rw [hdbF, if_pos hupd, get_last_pulled_timestamp_update]
      rfl
    obtain ⟨nA, nB⟩ := pullLoop_nh_spec env _ fuel 0 _ _ _ hloop
    constructor
    · rw [hwmF]
      rcases nB with hB | hB
      · exfalso
        rw [hB] at hupd
        exact Nat.lt_irrefl _ hupd
      · exact hB
    · intro cr hcr
      rw [hwmF]
      exact nA cr hcr
  · exfalso
    rw [hdbF, if_neg hupd,
      get_last_pulled_timestamp_congr env.userId husers] at hadv
    exact Nat.lt_irrefl _ hadv

theorem insertOk_true_parts {db : DB} {c : CheckinItem}
    (h : insertOk db c = true) :
    ∃ cid, c.id = some cid ∧ cid ≠ "" ∧ checkin_exists db cid = false := by
  unfold insertOk at h
  cases hid : c.id with
  | none => rw [hid] at h; cases h
  | some cid =>
    rw [hid] at h
    simp only [Bool.and_eq_true, Bool.not_eq_true',
      decide_eq_false_iff_not] at h
    exact ⟨cid, rfl, h.1.1, h.1.2⟩

theorem insertStep_db (env : Env) (st : LoopState) (c : CheckinItem) :
    (insertStep env st c).1.db =
      (insert_checkin env.now st.db c env.userId).2 := by
  unfold insertStep
  split
  · rfl
  · rfl

/-- C4: inserting a checkin whose identifier is already stored reports
false and leaves the store untouched (the source never lets an exception
escape: the insert body is wrapped in a catch-all that reports false); a
record that actually changed the store reported true, a false report
never changed it; and the insert keeps checkin identifiers unique. -/
theorem C4_insert_checkin_dedup (now : Nat) (db : DB) (c : CheckinItem)
    (uid : String) :
    (∀ cid, c.id = some cid → checkin_exists db cid = true →
      insert_checkin now db c uid = (false, db)) ∧
    ((insert_checkin now db c uid).2 ≠ db →
      (insert_checkin now db c uid).1 = true) ∧
    ((insert_checkin now db c uid).1 = false →
      (insert_checkin now db c uid).2 = db) ∧
    ((db.checkins.map (fun r => r.checkinId)).Nodup →
      (((insert_checkin now db c uid).2.checkins.map
        (fun r => r.checkinId))).Nodup) := by
  have hfalse : insertOk db c = false →
      insert_checkin now db c uid = (false, db) :=
    fun h => insert_checkin_fail now uid h
  refine ⟨?_, ?_, ?_, ?_⟩
  · intro cid hcid hdup
    apply hfalse
    unfold insertOk
    rw [hcid]
    by_cases hc : cid = ""
    · simp [hc]
    · simp [hc, hdup]
  · intro hchanged
    by_cases hok : insertOk db c = true
    · obtain ⟨cid, pid, created, _, _, _, heq⟩ :=
        insert_checkin_true now uid hok
      rw [heq]
    · rw [hfalse (by simp_all)] at hchanged ⊢
      exact absurd rfl hchanged
  · intro hf
    by_cases hok : insertOk db c = true
    · obtain ⟨cid, pid, created, _, _, _, heq⟩ :=
        insert_checkin_true now uid hok
      rw [heq] at hf
      cases hf
    · rw [hfalse (by simp_all)]
  · intro hnd
    by_cases hok : insertOk db c = true
    · obtain ⟨cid, pid, created, hid, hv, hc, heq⟩ :=
        insert_checkin_true now uid hok
      have hfresh : checkin_exists db cid = false := by
        obtain ⟨cid2, hid2, hne, hfresh2⟩ := insertOk_true_parts hok
        rw [hid] at hid2
        injection hid2 with hid3
        rw [← hid3] at hfresh2
        exact hfresh2
      rw [heq]
      simp only [List.map_append]
      rw [List.nodup_append]
      refine ⟨hnd, by simp, ?_⟩
      intro a ha hb
      simp only [checkinRowOf, List.map_cons, List.map_nil,
        List.mem_singleton] at hb
      unfold checkin_exists at hfresh
      simp only [List.mem_map] at ha
      obtain ⟨r, hr, hra⟩ := ha
      have hany : db.checkins.any (fun r2 => decide (r2.checkinId = cid)) =
          true :=
        List.any_eq_true.mpr ⟨r, hr, by simp [hra, hb]⟩
      rw [hany] at hfresh
      cases hfresh
    · rw [hfalse (by simp_all)]
      exact hnd

/-- C8: a place body with exactly one of latitude and longitude populated
violates places_coords_check, so its upsert reports failure with the
store untouched; and every row of a places relation whose rows satisfy
the coordinate constraint still satisfies it after any upsert. -/
theorem C8_places_coords_constraint (now : Nat) (db : DB)
    (pd : PlaceData) :
    ((pd.latitude.isSome && !pd.longitude.isSome) ||
     (!pd.latitude.isSome && pd.longitude.isSome) = true →
      insert_or_update_place now db pd = (false, db)) ∧
    ((∀ r ∈ db.places, coordsOk r.latitude r.longitude = true) →
      ∀ r ∈ (insert_or_update_place now db pd).2.places,
        coordsOk r.latitude r.longitude = true) := by
  constructor
  · intro hone
    have hco : coordsOk pd.latitude pd.longitude = false := by
      unfold coordsOk
      cases hla : pd.latitude <;> cases hlo : pd.longitude <;>
        simp_all
    apply insert_or_update_place_fail
    unfold upsertOk
    cases pd.fsqPlaceId
    · rfl
    · simp [hco]
  · intro hrows r hr
    by_cases hok : upsertOk pd = true
    · obtain ⟨pid, hid, hne, heq⟩ := insert_or_update_place_true now db hok
      rw [heq] at hr
      simp only [List.mem_append, List.mem_singleton] at hr
      rcases hr with hr | hr
      · exact hrows r (List.mem_filter.mp hr).1
      · subst hr
        unfold upsertOk at hok
        rw [hid] at hok
        simp only [Bool.and_eq_true] at hok
        simpa [placeRowOf] using hok.2
    · rw [insert_or_update_place_fail now db (by simp_all)] at hr
      exact hrows r hr

/-- C7: when an in-boundary item's place cannot be resolved or stored
(fetch failure, or a body failing the upsert), the loop still attempts
the checkin insert against the untouched store, and a successfully
committed checkin then references a place identifier that has no row in
the places relation. -/
theorem C7_place_failure_not_blocking (env : Env) (lastPulled : Nat)
    (st : LoopState) (c : CheckinItem) (rest : List CheckinItem)
    (pid : String) (hb : boundaryHit lastPulled c = false)
    (hv : c.venueId = some pid) (hp : pid ≠ "")
    (hex : place_exists st.db pid = false)
    (hfail : env.fetchPlace pid = none ∨
      ∃ pd, env.fetchPlace pid = some pd ∧ upsertOk pd = false) :
    (processItems env lastPulled st (c :: rest)).1 =
      (processItems env lastPulled
        (insertStep env (resolvePlaceStep env st c).1 c).1 rest).1 ∧
    (resolvePlaceStep env st c).1.db = st.db ∧
    (insertStep env (resolvePlaceStep env st c).1 c).1.db =
      (insert_checkin env.now st.db c env.userId).2 ∧
    ((insert_checkin env.now st.db c env.userId).1 = true →
      ∃ row, row ∈
        (insertStep env (resolvePlaceStep env st c).1 c).1.db.checkins ∧
        row.placeFsqId = pid ∧
        place_exists
          (insertStep env (resolvePlaceStep env st c).1 c).1.db pid =
          false) := by
  have hdbP : (resolvePlaceStep env st c).1.db = st.db := by
    unfold resolvePlaceStep
    rw [hv]
    rcases hfail with hf | ⟨pd, hf, hupd⟩
    · simp [hp, hex, hf]
    · have hfst := @insert_or_update_place_fail pd env.now st.db hupd
      simp [hp, hex, hf, hfst]
  have hdbI : (insertStep env (resolvePlaceStep env st c).1 c).1.db =
      (insert_checkin env.now st.db c env.userId).2 := by
    rw [insertStep_db, hdbP]
  refine ⟨?_, hdbP, hdbI, ?_⟩
  · have hb2 : ¬ boundaryHit lastPulled c = true := by simp [hb]
    simp only [processItems, if_neg hb2]
  · intro htrue
    have hok : insertOk st.db c = true := by
      by_cases h2 : insertOk st.db c = true
      · exact h2
      · rw [insert_checkin_fail env.now env.userId (by simp_all)] at htrue
        cases htrue
    obtain ⟨cid, pid2, created, hid, hv2, hc2, heq⟩ :=
      insert_checkin_true env.now env.userId hok
    rw [hv] at hv2
    injection hv2 with hv3
    subst hv3
    refine ⟨checkinRowOf env.now env.userId cid pid created c, ?_, rfl, ?_⟩
    · rw [hdbI, heq]
      simp
    · rw [hdbI]
      rw [place_exists_congr pid
        (insert_checkin_places env.now st.db c env.userId)]
      exact hex

/-- C6: the request executor makes at most MAX_RETRIES attempts, sleeps
BACKOFF_BASE ^ attempt (base above 1) after each failed attempt that is
not the last, returns none after exhausting the attempts without ever
raising (the embedded function is total: the source catches every
RequestException, parse errors included), and returns the parsed body of
the first successful attempt, followed only by the throttle delay. -/
theorem C6_make_api_request_retry_policy {α : Type}
    (oracle : Nat → Option α) (stats : PullStats) :
    ((make_api_request oracle stats).2.1.api_requests ≤
      stats.api_requests + MAX_RETRIES) ∧
    ((1 : ℚ) < BACKOFF_BASE) ∧
    ((∀ i, i < MAX_RETRIES → oracle i = none) →
      (make_api_request oracle stats).1 = none ∧
      (make_api_request oracle stats).2.1.api_requests =
        stats.api_requests + MAX_RETRIES ∧
      (make_api_request oracle stats).2.2 =
        [BACKOFF_BASE ^ 0, BACKOFF_BASE ^ 1]) ∧
    (∀ k b, k < MAX_RETRIES → (∀ j, j < k → oracle j = none) →
      oracle k = some b →
      (make_api_request oracle stats).1 = some b ∧
      (make_api_request oracle stats).2.1.api_requests =
        stats.api_requests + (k + 1) ∧
      (make_api_request oracle stats).2.2 =
        (List.range k).map (fun j => BACKOFF_BASE ^ j) ++
          [REQUEST_DELAY]) := by
  refine ⟨?_, by norm_num [BACKOFF_BASE], ?_, ?_⟩
  · cases h0 : oracle 0 <;> cases h1 : oracle 1 <;> cases h2 : oracle 2 <;>
      simp [make_api_request, make_api_request_go, MAX_RETRIES, h0, h1, h2]
  · intro hall
    have h0 := hall 0 (by norm_num [MAX_RETRIES])
    have h1 := hall 1 (by norm_num [MAX_RETRIES])
    have h2 := hall 2 (by norm_num [MAX_RETRIES])
    simp [make_api_request, make_api_request_go, MAX_RETRIES, h0, h1, h2]
  · intro k b hk hprev hok
    unfold MAX_RETRIES at hk
    interval_cases k
    · simp [make_api_request, make_api_request_go, MAX_RETRIES, hok]
    · have h0 := hprev 0 (by norm_num)
      simp [make_api_request, make_api_request_go, MAX_RETRIES, h0, hok,
        List.range_succ]
    · have h0 := hprev 0 (by norm_num)
      have h1 := hprev 1 (by norm_num)
      simp [make_api_request, make_api_request_go, MAX_RETRIES, h0, h1,
        hok, List.range_succ]

theorem placeFetchCount_append (xs ys : List Event) (pid : String) :
    placeFetchCount (xs ++ ys) pid =
      placeFetchCount xs pid + placeFetchCount ys pid := by
  unfold placeFetchCount
  exact List.countP_append _ _ _

theorem noRepeatAfterStored_append {xs ys : List Event}
    (hxs : noRepeatAfterStored xs = true)
    (hys : noRepeatAfterStored ys = true)
    (hcross : ∀ pid, (∃ e ∈ xs, storedSelf pid e = true) →
      placeFetchCount ys pid = 0) :
    noRepeatAfterStored (xs ++ ys) = true := by
  induction xs with
  | nil => exact hys
  | cons e xs ih =>
    have hxs2 : noRepeatAfterStored xs = true := by
      cases e with
      | pageRequest k b => exact hxs
      | checkinInserted cid cr => exact hxs
      | placeFetch q o =>
        cases o with
        | fetchFailed => exact hxs
        | storeFailed => exact hxs
        | stored sid =>
          simp only [noRepeatAfterStored, Bool.and_eq_true] at hxs
          exact hxs.2
    have ihx := ih hxs2 (fun pid hp =>
      hcross pid ⟨hp.choose, List.mem_cons_of_mem _ hp.choose_spec.1,
        hp.choose_spec.2⟩)
    cases e with
    | pageRequest k b => exact ihx
    | checkinInserted cid cr => exact ihx
    | placeFetch q o =>
      cases o with
      | fetchFailed => exact ihx
      | storeFailed => exact ihx
      | stored sid =>
        rw [List.cons_append]
        simp only [noRepeatAfterStored, Bool.and_eq_true]
        refine ⟨?_, ihx⟩
        by_cases hsq : sid = q
        · rw [if_pos hsq]
          simp only [noRepeatAfterStored, Bool.and_eq_true,
            if_pos hsq] at hxs
          have hxcount : placeFetchCount xs q = 0 := by
            have := hxs.1
            simpa using this
          have hycount : placeFetchCount ys q = 0 :=
            hcross q ⟨Event.placeFetch q (.stored sid),
              List.mem_cons_self _ _, by simp [storedSelf, hsq]⟩
          rw [placeFetchCount_append]
          simp [hxcount, hycount]
        · rw [if_neg hsq]

theorem noRepeatAfterStored_single (e : Event) :
    noRepeatAfterStored [e] = true := by
  cases e with
  | pageRequest k b => rfl
  | checkinInserted cid cr => rfl
  | placeFetch q o =>
    cases o with
    | fetchFailed => rfl
    | storeFailed => rfl
    | stored sid =>
      unfold noRepeatAfterStored
      rw [Bool.and_eq_true]
      constructor
      · split
        · simp [placeFetchCount]
        · rfl
      · rfl


theorem resolvePlaceStep_events (env : Env) (st : LoopState)
    (c : CheckinItem) :
    ((resolvePlaceStep env st c).2 = [] ∧ resolvePlaceStep env st c =
      (st, [])) ∨
    (∃ pid o, c.venueId = some pid ∧ pid ≠ "" ∧
      place_exists st.db pid = false ∧
      (resolvePlaceStep env st c).2 = [Event.placeFetch pid o] ∧
      (o = .fetchFailed ∨ o = .storeFailed ∨
        ∃ sid, o = .stored sid ∧
          place_exists (resolvePlaceStep env st c).1.db sid = true)) := by
  unfold resolvePlaceStep
  cases hv : c.venueId with
  | none => exact Or.inl ⟨rfl, rfl⟩
  | some q =>
    dsimp only
    by_cases hq : q = ""
    · rw [if_pos hq]
      exact Or.inl ⟨rfl, rfl⟩
    · rw [if_neg hq]
      by_cases hex : place_exists st.db q = true
      · rw [if_pos hex]
        exact Or.inl ⟨rfl, rfl⟩
      · rw [if_neg hex]
        have hex2 : place_exists st.db q = false := by
          simpa using hex
        cases hf : env.fetchPlace q with
        | none =>
          exact Or.inr ⟨q, .fetchFailed, rfl, hq, hex2, rfl, Or.inl rfl⟩
        | some pd =>
          dsimp only
          by_cases hfst : (insert_or_update_place env.now st.db pd).1 = true
          · rw [if_pos hfst]
            have hok : upsertOk pd = true := by
              by_cases h2 : upsertOk pd = true
              · exact h2
              · rw [insert_or_update_place_fail env.now st.db
                  (by simp_all)] at hfst
                cases hfst
            obtain ⟨pid1, hid1, hne1, heq1⟩ :=
              insert_or_update_place_true env.now st.db hok
            refine Or.inr ⟨q, _, rfl, hq, hex2, rfl,
              Or.inr (Or.inr ⟨pd.fsqPlaceId.getD "", rfl, ?_⟩)⟩
            have hself := insert_or_update_place_self env.now st.db hok hid1
            have hsid : pd.fsqPlaceId.getD "" = pid1 := by
              rw [hid1]
              rfl
            rw [hsid]
            exact hself
          · rw [if_neg hfst]
            exact Or.inr ⟨q, .storeFailed, rfl, hq, hex2, rfl,
              Or.inr (Or.inl rfl)⟩

theorem resolvePlaceStep_nofetch (env : Env) (st : LoopState)
    (c : CheckinItem) (pid : String) (h : place_exists st.db pid = true) :
    placeFetchCount (resolvePlaceStep env st c).2 pid = 0 := by
  rcases resolvePlaceStep_events env st c with ⟨hev, _⟩ |
    ⟨pid0, o, hv, hq, hex0, hev, _⟩
  · rw [hev]
    rfl
  · rw [hev]
    have hne : pid0 ≠ pid := by
      intro hcontra
      rw [hcontra] at hex0
      rw [h] at hex0
      cases hex0
    simp [placeFetchCount, hne]

theorem insertStep_nofetch2 (env : Env) (st : LoopState) (c : CheckinItem)
    (pid : String) :
    placeFetchCount (insertStep env st c).2 pid = 0 := by
  unfold insertStep
  split
  · simp [placeFetchCount]
  · simp [placeFetchCount]

theorem resolvePlaceStep_stored_self (env : Env) (st : LoopState)
    (c : CheckinItem) (pid : String)
    (h : ∃ e ∈ (resolvePlaceStep env st c).2, storedSelf pid e = true) :
    place_exists (resolvePlaceStep env st c).1.db pid = true := by
  obtain ⟨e, hmem, hsel⟩ := h
  rcases resolvePlaceStep_events env st c with ⟨hev, _⟩ |
    ⟨pid0, o, hv, hq, hex0, hev, ho⟩
  · rw [hev] at hmem
    cases hmem
  · rw [hev] at hmem
    rcases List.mem_singleton.mp hmem with rfl
    rcases ho with rfl | rfl | ⟨sid, rfl, hex1⟩
    · simp [storedSelf] at hsel
    · simp [storedSelf] at hsel
    · simp only [storedSelf, decide_eq_true_eq] at hsel
      obtain ⟨h1, h2⟩ := hsel
      rw [← h2]
      exact hex1

theorem insertStep_no_stored (env : Env) (st : LoopState) (c : CheckinItem)
    (pid : String) (e : Event) (hmem : e ∈ (insertStep env st c).2) :
    storedSelf pid e = false := by
  unfold insertStep at hmem
  split at hmem
  · rcases List.mem_singleton.mp hmem with rfl
    rfl
  · cases hmem

theorem processItems_nofetch (env : Env) (lastPulled : Nat)
    (items : List CheckinItem) : ∀ (st : LoopState) (pid : String),
    place_exists st.db pid = true →
    placeFetchCount (processItems env lastPulled st items).2.2 pid = 0 := by
  induction items with
  | nil =>
    intro st pid h
    rfl
  | cons c rest ih =>
    intro st pid h
    by_cases hb : boundaryHit lastPulled c = true
    · simp [processItems, if_pos hb, placeFetchCount]
    · simp only [processItems, if_neg hb]
      rw [placeFetchCount_append, placeFetchCount_append]
      have h1 := resolvePlaceStep_nofetch env st c pid h
      have h2 := insertStep_nofetch2 env (resolvePlaceStep env st c).1 c pid
      have hpres : place_exists
          (insertStep env (resolvePlaceStep env st c).1 c).1.db pid =
          true := by
        rw [place_exists_congr pid
          (insertStep_frame env (resolvePlaceStep env st c).1 c).2.1]
        exact resolvePlaceStep_place_mono env st c pid h
      have h3 := ih (insertStep env (resolvePlaceStep env st c).1 c).1 pid
        hpres
      omega

theorem processItems_goodtrace (env : Env) (lastPulled : Nat)
    (items : List CheckinItem) : ∀ st : LoopState,
    (∀ pid, (∃ e ∈ (processItems env lastPulled st items).2.2,
        storedSelf pid e = true) →
      place_exists (processItems env lastPulled st items).1.db pid =
        true) ∧
    noRepeatAfterStored (processItems env lastPulled st items).2.2 =
      true := by
  induction items with
  | nil =>
    intro st
    constructor
    · intro pid ⟨e, hmem, _⟩
      simp [processItems] at hmem
    · rfl
  | cons c rest ih =>
    intro st
    by_cases hb : boundaryHit lastPulled c = true
    · constructor
      · intro pid ⟨e, hmem, _⟩
        simp [processItems, if_pos hb] at hmem
      · simp [processItems, if_pos hb, noRepeatAfterStored]
    · simp only [processItems, if_neg hb]
      obtain ⟨ihA, ihB⟩ :=
        ih (insertStep env (resolvePlaceStep env st c).1 c).1
      constructor
      · intro pid ⟨e, hmem, hsel⟩
        rcases List.mem_append.mp hmem with hm | hm
        · rcases List.mem_append.mp hm with hm2 | hm2
          · have hpe := resolvePlaceStep_stored_self env st c pid
              ⟨e, hm2, hsel⟩
            apply processItems_place_mono
            rw [place_exists_congr pid
              (insertStep_frame env (resolvePlaceStep env st c).1 c).2.1]
            exact hpe
          · rw [insertStep_no_stored env _ c pid e hm2] at hsel
            cases hsel
        · exact ihA pid ⟨e, hm, hsel⟩
      · rw [List.append_assoc]
        have he1 : noRepeatAfterStored (resolvePlaceStep env st c).2 =
            true := by
          rcases resolvePlaceStep_events env st c with ⟨hev, _⟩ |
            ⟨pid0, o, _, _, _, hev, _⟩
          · rw [hev]
            rfl
          · rw [hev]
            exact noRepeatAfterStored_single _
        have he2 : noRepeatAfterStored
            (insertStep env (resolvePlaceStep env st c).1 c).2 = true := by
          unfold insertStep
          split
          · rfl
          · rfl
        apply noRepeatAfterStored_append he1
        · apply noRepeatAfterStored_append he2 ihB
          intro pid ⟨e, hmem, hsel⟩
          rw [insertStep_no_stored env _ c pid e hmem] at hsel
          cases hsel
        · intro pid ⟨e, hmem, hsel⟩
          have hpe := resolvePlaceStep_stored_self env st c pid
            ⟨e, hmem, hsel⟩
          rw [placeFetchCount_append]
          have hc2 := insertStep_nofetch2 env (resolvePlaceStep env st c).1
            c pid
          have hpres : place_exists
              (insertStep env (resolvePlaceStep env st c).1 c).1.db pid =
              true := by
            rw [place_exists_congr pid
              (insertStep_frame env (resolvePlaceStep env st c).1 c).2.1]
            exact hpe
          have hc3 := processItems_nofetch env lastPulled rest _ pid hpres
          omega

theorem pullLoop_nofetch (env : Env) (lastPulled : Nat) :
    ∀ (fuel k : Nat) (st stF : LoopState) (tr : List Event),
    pullLoop env lastPulled fuel k st = some (stF, tr) →
    ∀ pid, place_exists st.db pid = true →
    placeFetchCount tr pid = 0 := by
  intro fuel
  induction fuel with
  | zero =>
    intro k st stF tr h
    simp [pullLoop] at h
  | succ n ih =>
    intro k st stF tr h
    simp only [pullLoop] at h
    cases hpg : env.fetchPage k with
    | none =>
      simp only [hpg] at h
      injection h with h1
      injection h1 with h2 h3
      subst h3
      intro pid hpe
      simp [placeFetchCount]
    | some items =>
      simp only [hpg] at h
      by_cases hemp : items.isEmpty = true
      · simp only [hemp, if_true] at h
        injection h with h1
        injection h1 with h2 h3
        subst h3
        intro pid hpe
        simp [placeFetchCount]
      · simp only [hemp, if_false] at h
        by_cases hstop : (processItems env lastPulled
            { st with stats := { st.stats with
              api_requests := st.stats.api_requests + 1 } } items).2.1 =
              false ∨ items.length < CHECKINS_LIMIT
        · rw [if_pos hstop] at h
          injection h with h1
          injection h1 with h2 h3
          subst h3
          intro pid hpe
          have hc := processItems_nofetch env lastPulled items
            { st with stats := { st.stats with
              api_requests := st.stats.api_requests + 1 } } pid hpe
          simp [placeFetchCount, List.countP_cons] at hc ⊢
          exact hc
        · rw [if_neg hstop] at h
          cases hrec : pullLoop env lastPulled n (k + 1)
              (processItems env lastPulled
                { st with stats := { st.stats with
                  api_requests := st.stats.api_requests + 1 } }
                items).1 with
          | none => rw [hrec] at h; cases h
          | some p =>
            obtain ⟨stF2, trr⟩ := p
            rw [hrec] at h
            injection h with h1
            injection h1 with h2 h3
            subst h3
            intro pid hpe
            have hc1 := processItems_nofetch env lastPulled items
              { st with stats := { st.stats with
                api_requests := st.stats.api_requests + 1 } } pid hpe
            have hpres : place_exists (processItems env lastPulled
                { st with stats := { st.stats with
                  api_requests := st.stats.api_requests + 1 } }
                items).1.db pid = true :=
              processItems_place_mono env lastPulled items _ pid hpe
            have hc2 := ih (k + 1) _ _ _ hrec pid hpres
            simp only [List.cons_append]
            unfold placeFetchCount at hc1 hc2 ⊢
            rw [List.countP_cons, List.countP_append, hc1, hc2]
            simp

theorem pullLoop_goodtrace (env : Env) (lastPulled : Nat) :
    ∀ (fuel k : Nat) (st stF : LoopState) (tr : List Event),
    pullLoop env lastPulled fuel k st = some (stF, tr) →
    (∀ pid, (∃ e ∈ tr, storedSelf pid e = true) →
      place_exists stF.db pid = true) ∧
    noRepeatAfterStored tr = true := by
  intro fuel
  induction fuel with
  | zero =>
    intro k st stF tr h
    simp [pullLoop] at h
  | succ n ih =>
    intro k st stF tr h
    simp only [pullLoop] at h
    cases hpg : env.fetchPage k with
    | none =>
      simp only [hpg] at h
      injection h with h1
      injection h1 with h2 h3
      subst h3
      constructor
      · intro pid ⟨e, hmem, hsel⟩
        rcases List.mem_singleton.mp hmem with rfl
        cases hsel
      · rfl
    | some items =>
      simp only [hpg] at h
      by_cases hemp : items.isEmpty = true
      · simp only [hemp, if_true] at h
        injection h with h1
        injection h1 with h2 h3
        subst h3
        constructor
        · intro pid ⟨e, hmem, hsel⟩
          rcases List.mem_singleton.mp hmem with rfl
          cases hsel
        · rfl
      · simp only [hemp, if_false] at h
        by_cases hstop : (processItems env lastPulled
            { st with stats := { st.stats with
              api_requests := st.stats.api_requests + 1 } } items).2.1 =
              false ∨ items.length < CHECKINS_LIMIT
        · rw [if_pos hstop] at h
          injection h with h1
          injection h1 with h2 h3
          subst h2
          subst h3
          obtain ⟨gA, gB⟩ := processItems_goodtrace env lastPulled items
            { st with stats := { st.stats with
              api_requests := st.stats.api_requests + 1 } }
          constructor
          · intro pid ⟨e, hmem, hsel⟩
            rcases List.mem_cons.mp hmem with rfl | hm
            · cases hsel
            · exact gA pid ⟨e, hm, hsel⟩
          · simp only [noRepeatAfterStored]
            exact gB
        · rw [if_neg hstop] at h
          cases hrec : pullLoop env lastPulled n (k + 1)
              (processItems env lastPulled
                { st with stats := { st.stats with
                  api_requests := st.stats.api_requests + 1 } }
                items).1 with
          | none => rw [hrec] at h; cases h
          | some p =>
            obtain ⟨stF2, trr⟩ := p
            rw [hrec] at h
            injection h with h1
            injection h1 with h2 h3
            subst h2
            subst h3
            obtain ⟨gA, gB⟩ := processItems_goodtrace env lastPulled items
              { st with stats := { st.stats with
                api_requests := st.stats.api_requests + 1 } }
            obtain ⟨iA, iB⟩ := ih (k + 1) _ _ _ hrec
            obtain ⟨_, _, _, imono, _⟩ :=
              pullLoop_frame env lastPulled n (k + 1) _ _ _ hrec
            constructor
            · intro pid ⟨e, hmem, hsel⟩
              rw [List.cons_append] at hmem
              rcases List.mem_cons.mp hmem with rfl | hm
              · cases hsel
              · rcases List.mem_append.mp hm with hm2 | hm2
                · apply imono
                  exact gA pid ⟨e, hm2, hsel⟩
                · exact iA pid ⟨e, hm2, hsel⟩
            · rw [List.cons_append]
              simp only [noRepeatAfterStored]
              apply noRepeatAfterStored_append gB iB
              intro pid ⟨e, hmem, hsel⟩
              have hpe := gA pid ⟨e, hmem, hsel⟩
              exact pullLoop_nofetch env lastPulled n (k + 1) _ _ _ hrec
                pid hpe

/-- C5, amended: within one run, once a place-details call for an
identifier succeeds and its body is stored under that same identifier, no
later place-details call of the run targets that identifier; only calls
whose result was not stored under the requested identifier (fetch
failure, store failure, or a body carrying a different identifier) can be
followed by another call for it. -/
theorem C5_place_cache_once_after_store (env : Env) (fuel : Nat)
    (db dbF : DB) (s : PullStats) (tr : List Event)
    (hrun : pull_checkins_for_user env fuel db = some (dbF, s, tr)) :
    noRepeatAfterStored tr = true := by
  obtain ⟨stF, hloop, hs, hdbF⟩ := pull_cases hrun
  exact (pullLoop_goodtrace env _ fuel 0 _ _ _ hloop).2

/-- C1 witness: user u starts at watermark 20, the remote page holds one
checkin with timestamp 30; the run inserts it and 20 < 30. -/
theorem C1_resumption_correctness_witness :
    (get_last_pulled_timestamp dbW envW.userId).getD 0 < 30 :=
  (C1_resumption_correctness envW 2 dbW rW.1 rW.2.1 rW.2.2 (by decide)
    (by decide)).1 "c1" 30 (by decide)

/-- C3 witness: the same run advances the watermark from 20 by a single
users upsert carrying 30. -/
theorem C3_watermark_monotone_witness :
    (get_last_pulled_timestamp dbW envW.userId).getD 0 ≤
      (get_last_pulled_timestamp rW.1 envW.userId).getD 0 ∧
    (rW.1.users = dbW.users ∨
      ∃ nh, (get_last_pulled_timestamp dbW envW.userId).getD 0 < nh ∧
        rW.1.users =
          dbW.users.filter (fun r => decide (r.userId ≠ envW.userId)) ++
          [{ userId := envW.userId, lastPulledTimestamp := nh,
             lastUpdatedAt := envW.now, createdAt := envW.now }] ∧
        (get_last_pulled_timestamp rW.1 envW.userId).getD 0 = nh) :=
  C3_watermark_monotone envW 2 dbW rW.1 rW.2.1 rW.2.2 (by decide)

/-- C10 witness: the advanced watermark 30 of that run is the timestamp
of an inserted checkin. -/
theorem C10_advanced_watermark_witness :
    (get_last_pulled_timestamp rW.1 envW.userId).getD 0 ∈
      insertedCreateds rW.2.2 :=
  (C10_advanced_watermark_is_max_inserted envW 2 dbW rW.1 rW.2.1 rW.2.2
    (by decide) (by decide)).1

/-- C5 witness: the trace of that run passes the repeat-after-store
check. -/
theorem C5_place_cache_once_witness :
    noRepeatAfterStored rW.2.2 = true :=
  C5_place_cache_once_after_store envW 2 dbW rW.1 rW.2.1 rW.2.2 (by decide)

/-- C2 witness: rerunning that pull against its own output store changes
nothing and inserts nothing. -/
theorem C2_idempotent_witness :
    ∃ s2 tr2,
      pull_checkins_for_user
        { envW with now := 41, moduleLoadTime := 1, runStartTime := 1 }
        2 rW.1 = some (rW.1, s2, tr2) ∧
      s2.checkins_pulled = 0 ∧ s2.places_pulled = 0 :=
  pull_checkins_for_user_idempotent envW 41 1 1 2 dbW rW.1 rW.2.1 rW.2.2
    (fun pid pd h => by
      injection h with h2
      rw [← h2]
      rfl)
    (by decide)

/-- C5 counterexample: two checkins of one page share place P, the place
fetch fails, and the run calls the place endpoint twice for P, refuting
at-most-once-per-identifier for failing outcomes. -/
theorem C5_counterexample_two_fetches :
    pull_checkins_for_user envC5 2 emptyDB = some rC5 ∧
    placeFetchCount rC5.2.2 "P" = 2 ∧ ¬ placeFetchCount rC5.2.2 "P" ≤ 1 := by
  refine ⟨by decide, by decide, by decide⟩

/-- C2 counterexample: the place-details response for P carries the
identifier Q, the single checkin has no id so its insert fails and the
watermark stays 0; the second run (one clock tick later, same remote
responses) re-fetches P and re-stores Q with a fresh last_updated_at, so
the second run's store differs from the first run's, refuting
idempotence over arbitrary fixed response sequences. -/
theorem C2_counterexample_mismatched_place_id :
    pull_checkins_for_user envC2a 2 emptyDB = some rC2a ∧
    pull_checkins_for_user envC2b 2 rC2a.1 = some rC2b ∧
    rC2b.1 ≠ rC2a.1 ∧ rC2b.2.1.checkins_pulled = 0 := by
  refine ⟨by decide, by decide, by decide, by decide⟩

/-- C9: the counters of the returned statistics are exact (inserted
checkins, stored places, requests issued), but duration is measured from
PullStats.start_time, which the dataclass default froze at module import
(time 0 here), not at the run's start (time 50): read at time 100 the
code reports 100 where the elapsed run time is 50. -/
theorem C9_duration_measured_from_import :
    pull_checkins_for_user envC9 2 emptyDB = some rC9 ∧
    rC9.2.1.checkins_pulled = insertedCount rC9.2.2 ∧
    rC9.2.1.places_pulled = storedCount rC9.2.2 ∧
    rC9.2.1.api_requests = apiEventCount rC9.2.2 ∧
    rC9.2.1.start_time = envC9.moduleLoadTime ∧
    PullStats.duration rC9.2.1 100 = 100 ∧
    100 - envC9.runStartTime = 50 ∧
    PullStats.duration rC9.2.1 100 ≠ 100 - envC9.runStartTime := by
  refine ⟨by decide, by decide, by decide, by decide, by decide, by decide,
    by decide, by decide⟩

/-- C4 witness: re-inserting the already stored checkin x reports false
and leaves the store unchanged. -/
theorem C4_insert_checkin_dedup_witness :
    insert_checkin 5 dbDup (mkItem (some "x") (some 9) (some "P")) "u" =
      (false, dbDup) :=
  (C4_insert_checkin_dedup 5 dbDup
    (mkItem (some "x") (some 9) (some "P")) "u").1 "x" rfl (by decide)

/-- C6 witness: an oracle failing every attempt yields none after exactly
MAX_RETRIES attempts with the two backoff sleeps. -/
theorem C6_make_api_request_witness :
    (make_api_request (fun _ => (none : Option Nat)) noStats).1 = none ∧
    (make_api_request (fun _ => (none : Option Nat))
      noStats).2.1.api_requests = noStats.api_requests + MAX_RETRIES ∧
    (make_api_request (fun _ => (none : Option Nat)) noStats).2.2 =
      [BACKOFF_BASE ^ 0, BACKOFF_BASE ^ 1] :=
  (C6_make_api_request_retry_policy (fun _ => (none : Option Nat))
    noStats).2.2.1 (fun _ _ => rfl)

/-- C7 witness: with a failing place fetch, the place step leaves the
store unchanged and the item's checkin insert still runs against it. -/
theorem C7_place_failure_not_blocking_witness :
    (resolvePlaceStep envW7 stW7 cW7).1.db = stW7.db ∧
    (insertStep envW7 (resolvePlaceStep envW7 stW7 cW7).1 cW7).1.db =
      (insert_checkin envW7.now stW7.db cW7 envW7.userId).2 :=
  ⟨(C7_place_failure_not_blocking envW7 0 stW7 cW7 [] "P" (by decide) rfl
      (by decide) (by decide) (Or.inl rfl)).2.1,
   (C7_place_failure_not_blocking envW7 0 stW7 cW7 [] "P" (by decide) rfl
      (by decide) (by decide) (Or.inl rfl)).2.2.1⟩

/-- C8 witness: a body with latitude but no longitude is rejected and the
store is unchanged. -/
theorem C8_places_coords_constraint_witness :
    insert_or_update_place 5 emptyDB pdOneSided = (false, emptyDB) :=
  (C8_places_coords_constraint 5 emptyDB pdOneSided).1 (by decide)
